import Mathlib

/-!
Verification development for the fingerprintjs measurement-orchestration and
identity-hashing pipeline (v5.0.1 source).  The JavaScript source is shallowly
embedded: 64-bit quantities are modelled as the source models them, namely as
pairs of 32-bit words held in JavaScript numbers, with the ECMAScript bitwise
operator semantics (`ToUint32` truncation) made explicit as `% 2^32`.
A second, independently written definition (`MurmurSpec`) follows the
specification's description of reference Murmur3 x64-128 using plain
64-bit modular arithmetic; the two are proved to agree.
-/

namespace FP

/-- `x >>> 0` / the ECMAScript `ToUint32` conversion, viewed on unsigned values. -/
def toUint32 (a : Nat) : Nat := a % 4294967296

/-- ECMAScript `a >>> s` (unsigned right shift; both operands truncated, shift count mod 32). -/
def jsShrU32 (a s : Nat) : Nat := toUint32 a >>> (s % 32)

/-- ECMAScript `a << s` viewed as an unsigned 32-bit result. -/
def jsShl32 (a s : Nat) : Nat := (toUint32 a <<< (s % 32)) % 4294967296

/-- ECMAScript `a & b` viewed unsigned. -/
def jsAnd32 (a b : Nat) : Nat := toUint32 a &&& toUint32 b

/-- ECMAScript `a | b` viewed unsigned. -/
def jsOr32 (a b : Nat) : Nat := toUint32 a ||| toUint32 b

/-- ECMAScript `a ^ b` viewed unsigned. -/
def jsXor32 (a b : Nat) : Nat := toUint32 a ^^^ toUint32 b

/-- The 64-bit value denoted by a `[hi32, lo32]` tuple of the source
(only the low 32 bits of each entry are observable through the JS bit ops). -/
def val (m : Nat × Nat) : Nat := (m.1 % 4294967296) * 4294967296 + m.2 % 4294967296

/-- Embeds `x64Add`: adds two 64-bit values provided as tuples of 32-bit values,
using four 16-bit limbs with carry propagation, exactly as the source. -/
def x64Add (m n : Nat × Nat) : Nat × Nat :=
  let m0 := jsShrU32 m.1 16
  let m1 := jsAnd32 m.1 0xffff
  let m2 := jsShrU32 m.2 16
  let m3 := jsAnd32 m.2 0xffff
  let n0 := jsShrU32 n.1 16
  let n1 := jsAnd32 n.1 0xffff
  let n2 := jsShrU32 n.2 16
  let n3 := jsAnd32 n.2 0xffff
  let o3 := m3 + n3
  let o2 := jsShrU32 o3 16
  let o3 := jsAnd32 o3 0xffff
  let o2 := o2 + (m2 + n2)
  let o1 := jsShrU32 o2 16
  let o2 := jsAnd32 o2 0xffff
  let o1 := o1 + (m1 + n1)
  let o0 := jsShrU32 o1 16
  let o1 := jsAnd32 o1 0xffff
  let o0 := o0 + (m0 + n0)
  let o0 := jsAnd32 o0 0xffff
  (jsOr32 (jsShl32 o0 16) o1, jsOr32 (jsShl32 o2 16) o3)

/-- Embeds `x64Multiply`: multiplies two 64-bit values provided as tuples of
32-bit values, via 16-bit limb products with carry propagation, as the source. -/
def x64Multiply (m n : Nat × Nat) : Nat × Nat :=
  let m0 := jsShrU32 m.1 16
  let m1 := jsAnd32 m.1 0xffff
  let m2 := jsShrU32 m.2 16
  let m3 := jsAnd32 m.2 0xffff
  let n0 := jsShrU32 n.1 16
  let n1 := jsAnd32 n.1 0xffff
  let n2 := jsShrU32 n.2 16
  let n3 := jsAnd32 n.2 0xffff
  let o3 := m3 * n3
  let o2 := jsShrU32 o3 16
  let o3 := jsAnd32 o3 0xffff
  let o2 := o2 + m2 * n3
  let o1 := jsShrU32 o2 16
  let o2 := jsAnd32 o2 0xffff
  let o2 := o2 + m3 * n2
  let o1 := o1 + jsShrU32 o2 16
  let o2 := jsAnd32 o2 0xffff
  let o1 := o1 + m1 * n3
  let o0 := jsShrU32 o1 16
  let o1 := jsAnd32 o1 0xffff
  let o1 := o1 + m2 * n2
  let o0 := o0 + jsShrU32 o1 16
  let o1 := jsAnd32 o1 0xffff
  let o1 := o1 + m3 * n1
  let o0 := o0 + jsShrU32 o1 16
  let o1 := jsAnd32 o1 0xffff
  let o0 := o0 + (m0 * n3 + m1 * n2 + m2 * n1 + m3 * n0)
  let o0 := jsAnd32 o0 0xffff
  (jsOr32 (jsShl32 o0 16) o1, jsOr32 (jsShl32 o2 16) o3)

/-- Embeds `x64Rotl`: left rotation of a 64-bit value given as two 32-bit words. -/
def x64Rotl (m : Nat × Nat) (bits : Nat) : Nat × Nat :=
  let m0 := m.1
  let bits := bits % 64
  if bits = 32 then
    (m.2, m0)
  else if bits < 32 then
    (jsOr32 (jsShl32 m0 bits) (jsShrU32 m.2 (32 - bits)),
     jsOr32 (jsShl32 m.2 bits) (jsShrU32 m0 (32 - bits)))
  else
    let bits := bits - 32
    (jsOr32 (jsShl32 m.2 bits) (jsShrU32 m0 (32 - bits)),
     jsOr32 (jsShl32 m0 bits) (jsShrU32 m.2 (32 - bits)))

/-- Embeds `x64LeftShift`: left shift of a 64-bit value given as two 32-bit words. -/
def x64LeftShift (m : Nat × Nat) (bits : Nat) : Nat × Nat :=
  let bits := bits % 64
  if bits = 0 then
    m
  else if bits < 32 then
    (jsShrU32 m.2 (32 - bits), jsShl32 m.2 bits)
  else
    (jsShl32 m.2 (bits - 32), 0)

/-- Embeds `x64Xor`: componentwise xor of the two 32-bit words. -/
def x64Xor (m n : Nat × Nat) : Nat × Nat :=
  (jsXor32 m.1 n.1, jsXor32 m.2 n.2)

/-- Fmix constant `F1 = [0xff51afd7, 0xed558ccd]`. -/
def F1 : Nat × Nat := (0xff51afd7, 0xed558ccd)

/-- Fmix constant `F2 = [0xc4ceb9fe, 0x1a85ec53]`. -/
def F2 : Nat × Nat := (0xc4ceb9fe, 0x1a85ec53)

/-- Embeds `x64Fmix`: the final avalanche mix; `[0, h[0] >>> 1]` is the 33-bit
unsigned right shift of the 64-bit value, as the source comments explain. -/
def x64Fmix (h : Nat × Nat) : Nat × Nat :=
  let shifted := (0, jsShrU32 h.1 1)
  let h := x64Xor h shifted
  let h := x64Multiply h F1
  let shifted := (shifted.1, jsShrU32 h.1 1)
  let h := x64Xor h shifted
  let h := x64Multiply h F2
  let shifted := (shifted.1, jsShrU32 h.1 1)
  x64Xor h shifted

/-- Block constant `C1 = [0x87c37b91, 0x114253d5]`. -/
def C1 : Nat × Nat := (0x87c37b91, 0x114253d5)

/-- Block constant `C2 = [0x4cf5ad43, 0x2745937f]`. -/
def C2 : Nat × Nat := (0x4cf5ad43, 0x2745937f)

/-- Block multiplier `M$1 = [0, 5]` (renamed `M5`; `$` is not a Lean identifier character). -/
def M5 : Nat × Nat := (0, 5)

/-- Finalization constant `N1 = [0, 0x52dce729]`. -/
def N1 : Nat × Nat := (0, 0x52dce729)

/-- Finalization constant `N2 = [0, 0x38495ab5]`. -/
def N2 : Nat × Nat := (0, 0x38495ab5)

/-- `k1` of one 16-byte block: bytes `i+4..i+7` into the high word and
`i..i+3` into the low word, little-endian, as in the source's loop body. -/
def blockK1 (key : List Nat) (i : Nat) : Nat × Nat :=
  (jsOr32 (jsOr32 (jsOr32 (key.getD (i + 4) 0) (jsShl32 (key.getD (i + 5) 0) 8))
      (jsShl32 (key.getD (i + 6) 0) 16)) (jsShl32 (key.getD (i + 7) 0) 24),
   jsOr32 (jsOr32 (jsOr32 (key.getD i 0) (jsShl32 (key.getD (i + 1) 0) 8))
      (jsShl32 (key.getD (i + 2) 0) 16)) (jsShl32 (key.getD (i + 3) 0) 24))

/-- `k2` of one 16-byte block: bytes `i+12..i+15` high, `i+8..i+11` low. -/
def blockK2 (key : List Nat) (i : Nat) : Nat × Nat :=
  (jsOr32 (jsOr32 (jsOr32 (key.getD (i + 12) 0) (jsShl32 (key.getD (i + 13) 0) 8))
      (jsShl32 (key.getD (i + 14) 0) 16)) (jsShl32 (key.getD (i + 15) 0) 24),
   jsOr32 (jsOr32 (jsOr32 (key.getD (i + 8) 0) (jsShl32 (key.getD (i + 9) 0) 8))
      (jsShl32 (key.getD (i + 10) 0) 16)) (jsShl32 (key.getD (i + 11) 0) 24))

/-- The body of the source's 16-byte block loop (the two-lane mixing sequence). -/
def blockStep (h1 h2 k1 k2 : Nat × Nat) : (Nat × Nat) × (Nat × Nat) :=
  let k1 := x64Multiply k1 C1
  let k1 := x64Rotl k1 31
  let k1 := x64Multiply k1 C2
  let h1 := x64Xor h1 k1
  let h1 := x64Rotl h1 27
  let h1 := x64Add h1 h2
  let h1 := x64Multiply h1 M5
  let h1 := x64Add h1 N1
  let k2 := x64Multiply k2 C2
  let k2 := x64Rotl k2 33
  let k2 := x64Multiply k2 C1
  let h2 := x64Xor h2 k2
  let h2 := x64Rotl h2 31
  let h2 := x64Add h2 h1
  let h2 := x64Multiply h2 M5
  let h2 := x64Add h2 N2
  (h1, h2)

/-- The source's `for (i = 0; i < bytes; i += 16)` loop, with the trip count
`n = bytes / 16` made explicit and the byte index `i` threaded through. -/
def blocksLoop (key : List Nat) : Nat → Nat → Nat × Nat → Nat × Nat → (Nat × Nat) × (Nat × Nat)
  | 0, _, h1, h2 => (h1, h2)
  | n + 1, i, h1, h2 =>
    let k1 := blockK1 key i
    let k2 := blockK2 key i
    let p := blockStep h1 h2 k1 k2
    blocksLoop key n (i + 16) p.1 p.2

/-- Mutable state of the source's tail `switch` (`k1`, `k2`, `val`, `h1`, `h2`). -/
structure MState where
  k1 : Nat × Nat
  k2 : Nat × Nat
  tv : Nat × Nat
  h1 : Nat × Nat
  h2 : Nat × Nat

/-- Tail `case 1`: `val[1] = key[i]`, `k1 ^= val`, then the `k1` mix into `h1`. -/
def tailCase1 (key : List Nat) (i : Nat) (s : MState) : MState :=
  let tv := (s.tv.1, key.getD i 0)
  let k1 := x64Xor s.k1 tv
  let k1 := x64Multiply k1 C1
  let k1 := x64Rotl k1 31
  let k1 := x64Multiply k1 C2
  let h1 := x64Xor s.h1 k1
  { s with tv := tv, k1 := k1, h1 := h1 }

/-- Tail `case 2` (falls through to `case 1`). -/
def tailCase2 (key : List Nat) (i : Nat) (s : MState) : MState :=
  let tv := (s.tv.1, key.getD (i + 1) 0)
  let tv := x64LeftShift tv 8
  let k1 := x64Xor s.k1 tv
  tailCase1 key i { s with tv := tv, k1 := k1 }

/-- Tail `case 3` (falls through). -/
def tailCase3 (key : List Nat) (i : Nat) (s : MState) : MState :=
  let tv := (s.tv.1, key.getD (i + 2) 0)
  let tv := x64LeftShift tv 16
  let k1 := x64Xor s.k1 tv
  tailCase2 key i { s with tv := tv, k1 := k1 }

/-- Tail `case 4` (falls through). -/
def tailCase4 (key : List Nat) (i : Nat) (s : MState) : MState :=
  let tv := (s.tv.1, key.getD (i + 3) 0)
  let tv := x64LeftShift tv 24
  let k1 := x64Xor s.k1 tv
  tailCase3 key i { s with tv := tv, k1 := k1 }

/-- Tail `case 5` (falls through). -/
def tailCase5 (key : List Nat) (i : Nat) (s : MState) : MState :=
  let tv := (s.tv.1, key.getD (i + 4) 0)
  let tv := x64LeftShift tv 32
  let k1 := x64Xor s.k1 tv
  tailCase4 key i { s with tv := tv, k1 := k1 }

/-- Tail `case 6` (falls through). -/
def tailCase6 (key : List Nat) (i : Nat) (s : MState) : MState :=
  let tv := (s.tv.1, key.getD (i + 5) 0)
  let tv := x64LeftShift tv 40
  let k1 := x64Xor s.k1 tv
  tailCase5 key i { s with tv := tv, k1 := k1 }

/-- Tail `case 7` (falls through). -/
def tailCase7 (key : List Nat) (i : Nat) (s : MState) : MState :=
  let tv := (s.tv.1, key.getD (i + 6) 0)
  let tv := x64LeftShift tv 48
  let k1 := x64Xor s.k1 tv
  tailCase6 key i { s with tv := tv, k1 := k1 }

/-- Tail `case 8` (falls through). -/
def tailCase8 (key : List Nat) (i : Nat) (s : MState) : MState :=
  let tv := (s.tv.1, key.getD (i + 7) 0)
  let tv := x64LeftShift tv 56
  let k1 := x64Xor s.k1 tv
  tailCase7 key i { s with tv := tv, k1 := k1 }

/-- Tail `case 9`: `val[1] = key[i+8]`, `k2 ^= val`, the `k2` mix into `h2`,
then falls through to `case 8`. -/
def tailCase9 (key : List Nat) (i : Nat) (s : MState) : MState :=
  let tv := (s.tv.1, key.getD (i + 8) 0)
  let k2 := x64Xor s.k2 tv
  let k2 := x64Multiply k2 C2
  let k2 := x64Rotl k2 33
  let k2 := x64Multiply k2 C1
  let h2 := x64Xor s.h2 k2
  tailCase8 key i { s with tv := tv, k2 := k2, h2 := h2 }

/-- Tail `case 10` (falls through). -/
def tailCase10 (key : List Nat) (i : Nat) (s : MState) : MState :=
  let tv := (s.tv.1, key.getD (i + 9) 0)
  let tv := x64LeftShift tv 8
  let k2 := x64Xor s.k2 tv
  tailCase9 key i { s with tv := tv, k2 := k2 }

/-- Tail `case 11` (falls through). -/
def tailCase11 (key : List Nat) (i : Nat) (s : MState) : MState :=
  let tv := (s.tv.1, key.getD (i + 10) 0)
  let tv := x64LeftShift tv 16
  let k2 := x64Xor s.k2 tv
  tailCase10 key i { s with tv := tv, k2 := k2 }

/-- Tail `case 12` (falls through). -/
def tailCase12 (key : List Nat) (i : Nat) (s : MState) : MState :=
  let tv := (s.tv.1, key.getD (i + 11) 0)
  let tv := x64LeftShift tv 24
  let k2 := x64Xor s.k2 tv
  tailCase11 key i { s with tv := tv, k2 := k2 }

/-- Tail `case 13` (falls through). -/
def tailCase13 (key : List Nat) (i : Nat) (s : MState) : MState :=
  let tv := (s.tv.1, key.getD (i + 12) 0)
  let tv := x64LeftShift tv 32
  let k2 := x64Xor s.k2 tv
  tailCase12 key i { s with tv := tv, k2 := k2 }

/-- Tail `case 14` (falls through). -/
def tailCase14 (key : List Nat) (i : Nat) (s : MState) : MState :=
  let tv := (s.tv.1, key.getD (i + 13) 0)
  let tv := x64LeftShift tv 40
  let k2 := x64Xor s.k2 tv
  tailCase13 key i { s with tv := tv, k2 := k2 }

/-- Tail `case 15` (falls through). -/
def tailCase15 (key : List Nat) (i : Nat) (s : MState) : MState :=
  let tv := (s.tv.1, key.getD (i + 14) 0)
  let tv := x64LeftShift tv 48
  let k2 := x64Xor s.k2 tv
  tailCase14 key i { s with tv := tv, k2 := k2 }

/-- The tail `switch (remainder)` with fall-through (no `case 0`). -/
def tailSwitch (key : List Nat) (i : Nat) (remainder : Nat) (s : MState) : MState :=
  match remainder with
  | 15 => tailCase15 key i s
  | 14 => tailCase14 key i s
  | 13 => tailCase13 key i s
  | 12 => tailCase12 key i s
  | 11 => tailCase11 key i s
  | 10 => tailCase10 key i s
  | 9 => tailCase9 key i s
  | 8 => tailCase8 key i s
  | 7 => tailCase7 key i s
  | 6 => tailCase6 key i s
  | 5 => tailCase5 key i s
  | 4 => tailCase4 key i s
  | 3 => tailCase3 key i s
  | 2 => tailCase2 key i s
  | 1 => tailCase1 key i s
  | _ => s

/-- Lowercase hex digit characters, as produced by JS `Number.prototype.toString(16)`. -/
def hexDigit (n : Nat) : Char :=
  match n with
  | 0 => '0' | 1 => '1' | 2 => '2' | 3 => '3' | 4 => '4' | 5 => '5' | 6 => '6' | 7 => '7'
  | 8 => '8' | 9 => '9' | 10 => 'a' | 11 => 'b' | 12 => 'c' | 13 => 'd' | 14 => 'e'
  | 15 => 'f'
  | _ => '*'

/-- Hex digits of a positive number, most significant first (empty for 0). -/
def hexDigits (n : Nat) : List Char :=
  if n = 0 then [] else hexDigits (n / 16) ++ [hexDigit (n % 16)]
termination_by n
decreasing_by exact Nat.div_lt_self (Nat.pos_of_ne_zero (by assumption)) (by omega)

/-- JS `n.toString(16)` for an unsigned integer, as a character list. -/
def toHexLower (n : Nat) : List Char :=
  if n = 0 then ['0'] else hexDigits n

/-- JS `s.slice(-8)`: the last 8 characters (for strings of length at least 8). -/
def sliceLast8 (l : List Char) : List Char := l.drop (l.length - 8)

/-- One output word: `('00000000' + (w >>> 0).toString(16)).slice(-8)`. -/
def renderWord (w : Nat) : List Char :=
  sliceLast8 ("00000000".data ++ toHexLower (toUint32 w))

/-- Whether a character is a lowercase hexadecimal digit. -/
def isLowerHex (c : Char) : Bool :=
  (('0' ≤ c && c ≤ '9') || ('a' ≤ c && c ≤ 'f'))

/-- Embeds the body of `x64hash128` after UTF-8 conversion: block loop, tail
switch, finalization, and hex rendering of the four 32-bit words. -/
def x64hash128Bytes (key : List Nat) (seed : Nat) : String :=
  let len := key.length
  let remainder := len % 16
  let bytes := len - remainder
  let p := blocksLoop key (bytes / 16) 0 (0, seed) (0, seed)
  let s := tailSwitch key bytes remainder ⟨(0, 0), (0, 0), (0, 0), p.1, p.2⟩
  let lengthW : Nat × Nat := (0, len)
  let h1 := x64Xor s.h1 lengthW
  let h2 := x64Xor s.h2 lengthW
  let h1 := x64Add h1 h2
  let h2 := x64Add h2 h1
  let h1 := x64Fmix h1
  let h2 := x64Fmix h2
  let h1 := x64Add h1 h2
  let h2 := x64Add h2 h1
  String.mk (renderWord h1.1 ++ renderWord h1.2 ++ renderWord h2.1 ++ renderWord h2.2)

/-- UTF-8 encoding of one character (what `TextEncoder.encode` produces; the
source's ASCII fast path agrees with this byte-for-byte for chars below 128). -/
def utf8EncodeChar (c : Char) : List Nat :=
  let v := c.toNat
  if v < 0x80 then [v]
  else if v < 0x800 then [0xc0 + v / 64, 0x80 + v % 64]
  else if v < 0x10000 then [0xe0 + v / 4096, 0x80 + v / 64 % 64, 0x80 + v % 64]
  else [0xf0 + v / 262144, 0x80 + v / 4096 % 64, 0x80 + v / 64 % 64, 0x80 + v % 64]

/-- Embeds `getUTF8Bytes`: both of its branches (ASCII fast path, `TextEncoder`)
produce the UTF-8 byte encoding of the input string. -/
def getUTF8Bytes (input : String) : List Nat :=
  input.data.flatMap utf8EncodeChar

/-- Embeds `x64hash128(input, seed)` (`seed = seed || 0` makes the seed default 0). -/
def x64hash128 (input : String) (seed : Nat := 0) : String :=
  x64hash128Bytes (getUTF8Bytes input) seed

end FP

namespace MurmurSpec

/-!
Reference Murmur3 x64-128, written from the specification's words (§4.5):
16-byte blocks, two 64-bit lanes, the stated constants, 15 tail cases, the
`fmix` avalanche, and all arithmetic wrapping at 64 bits.
-/

/-- 64-bit left rotation. -/
def rotl64 (x r : Nat) : Nat := ((x <<< r) % 2 ^ 64) ||| (x % 2 ^ 64) >>> (64 - r)

/-- The final avalanche mix (`fmix`) with constants 0xff51afd7ed558ccd, 0xc4ceb9fe1a85ec53. -/
def fmix64 (k : Nat) : Nat :=
  let k := k ^^^ (k >>> 33)
  let k := k * 0xff51afd7ed558ccd % 2 ^ 64
  let k := k ^^^ (k >>> 33)
  let k := k * 0xc4ceb9fe1a85ec53 % 2 ^ 64
  k ^^^ (k >>> 33)

/-- Block constant `C1 = 0x87c37b91114253d5`. -/
def SC1 : Nat := 0x87c37b91114253d5

/-- Block constant `C2 = 0x4cf5ad432745937f`. -/
def SC2 : Nat := 0x4cf5ad432745937f

/-- Little-endian 64-bit value of a byte list (missing trailing bytes are zero). -/
def le64 : List Nat → Nat
  | [] => 0
  | b :: rest => b + 256 * le64 rest

/-- The `k1` lane mix: `k1 *= C1; k1 = rotl(k1, 31); k1 *= C2`. -/
def mixK1 (k1 : Nat) : Nat := rotl64 (k1 * SC1 % 2 ^ 64) 31 * SC2 % 2 ^ 64

/-- The `k2` lane mix: `k2 *= C2; k2 = rotl(k2, 33); k2 *= C1`. -/
def mixK2 (k2 : Nat) : Nat := rotl64 (k2 * SC2 % 2 ^ 64) 33 * SC1 % 2 ^ 64

/-- Block processing followed by tail handling: consumes 16-byte blocks with the
per-block multiply/rotate/xor mixing (block multiplier 5, constants N1, N2),
then xors the mixed tail lanes (k2 for tail bytes 8.., k1 for tail bytes 0..7). -/
def body (h1 h2 : Nat) (bs : List Nat) : Nat × Nat :=
  if h : 16 ≤ bs.length then
    let k1 := le64 (bs.take 8)
    let k2 := le64 ((bs.drop 8).take 8)
    let h1 := (rotl64 (h1 ^^^ mixK1 k1) 27 + h2) % 2 ^ 64 * 5 % 2 ^ 64
    let h1 := (h1 + 0x52dce729) % 2 ^ 64
    let h2 := (rotl64 (h2 ^^^ mixK2 k2) 31 + h1) % 2 ^ 64 * 5 % 2 ^ 64
    let h2 := (h2 + 0x38495ab5) % 2 ^ 64
    body h1 h2 (bs.drop 16)
  else
    let h2 := if 8 < bs.length then h2 ^^^ mixK2 (le64 (bs.drop 8)) else h2
    let h1 := if 0 < bs.length then h1 ^^^ mixK1 (le64 (bs.take 8)) else h1
    (h1, h2)
termination_by bs.length
decreasing_by simp [List.length_drop]; omega

/-- Fixed-width big-endian hex digits (`k` digits of `n`). -/
def digitsBE : Nat → Nat → List Char
  | 0, _ => []
  | k + 1, n => digitsBE k (n / 16) ++ [FP.hexDigit (n % 16)]

/-- Reference Murmur3 x64-128 of a byte string: returns `h1` concatenated with
`h2`, each rendered as exactly 16 lowercase hex digits. -/
def hash (key : List Nat) (seed : Nat) : String :=
  let len := key.length
  let p := body (seed % 2 ^ 64) (seed % 2 ^ 64) key
  let h1 := p.1 ^^^ len % 2 ^ 64
  let h2 := p.2 ^^^ len % 2 ^ 64
  let h1 := (h1 + h2) % 2 ^ 64
  let h2 := (h2 + h1) % 2 ^ 64
  let h1 := fmix64 h1
  let h2 := fmix64 h2
  let h1 := (h1 + h2) % 2 ^ 64
  let h2 := (h2 + h1) % 2 ^ 64
  String.mk (digitsBE 16 h1 ++ digitsBE 16 h2)

end MurmurSpec

namespace FP

/-- JSON-serializable component values (the fragment the entropy sources produce:
numbers, strings, booleans, null). -/
inductive JsonValue where
  | num (n : Int)
  | str (s : String)
  | bool (b : Bool)
  | null
deriving DecidableEq

/-- Escaping of one character inside a JSON string literal, as `JSON.stringify`
performs it (quote, backslash, the named control escapes, `\u00xx` for other
control characters). -/
def jsonEscapeChar (c : Char) : List Char :=
  if c = '"' then ['\\', '"']
  else if c = '\\' then ['\\', '\\']
  else if c.toNat = 8 then ['\\', 'b']
  else if c.toNat = 9 then ['\\', 't']
  else if c.toNat = 10 then ['\\', 'n']
  else if c.toNat = 12 then ['\\', 'f']
  else if c.toNat = 13 then ['\\', 'r']
  else if c.toNat < 32 then ['\\', 'u', '0', '0', hexDigit (c.toNat / 16), hexDigit (c.toNat % 16)]
  else [c]

/-- `JSON.stringify` on the modelled value fragment. -/
def jsonStringify : JsonValue → String
  | .num n => toString n
  | .str s => "\"" ++ String.mk (s.data.flatMap jsonEscapeChar) ++ "\""
  | .bool b => if b then "true" else "false"
  | .null => "null"

/-- A component: the outcome of one entropy source, either
`{value, duration}` or `{error, duration}` (exactly one of value/error). -/
inductive Component (ε : Type) where
  | value (v : JsonValue) (duration : Int)
  | error (e : ε) (duration : Int)

/-- `componentKey.replace(/([:|\\])/g, '\\$1')` on one character. -/
def escapeKeyChar (c : Char) : List Char :=
  if c = ':' ∨ c = '|' ∨ c = '\\' then ['\\', c] else [c]

/-- `componentKey.replace(/([:|\\])/g, '\\$1')`: backslash-escape `:`, `|`, `\`. -/
def escapeKey (s : String) : String := String.mk (s.data.flatMap escapeKeyChar)

/-- `'error' in component ? 'error' : JSON.stringify(component.value)`. -/
def renderComponentValue : Component ε → String
  | .error _ _ => "error"
  | .value v _ => jsonStringify v

/-- UTF-16 code units of one character (surrogate pair for astral characters);
JS strings are UTF-16 and `Array.prototype.sort` compares code units. -/
def charUtf16 (c : Char) : List Nat :=
  if c.toNat < 65536 then [c.toNat]
  else [55296 + (c.toNat - 65536) / 1024, 56320 + (c.toNat - 65536) % 1024]

/-- UTF-16 code units of a string. -/
def utf16Units (s : String) : List Nat := s.data.flatMap charUtf16

/-- Lexicographic comparison of code-unit lists (the order underlying JS `<` on strings). -/
def unitsLe : List Nat → List Nat → Bool
  | [], _ => true
  | _ :: _, [] => false
  | a :: as, b :: bs => if a < b then true else if b < a then false else unitsLe as bs

/-- The default JS string order used by `Array.prototype.sort()`. -/
def jsLe (a b : String) : Prop := unitsLe (utf16Units a) (utf16Units b) = true

instance : DecidableRel jsLe := fun a b =>
  inferInstanceAs (Decidable (unitsLe (utf16Units a) (utf16Units b) = true))

/-- `Object.keys(components).sort()`: the unique sorted arrangement of the keys
under the JS string order (the model uses insertion sort; with unique keys any
correct sort produces this arrangement). -/
def sortKeys (keys : List String) : List String := List.insertionSort jsLe keys

/-- Embeds `componentsToCanonicalString`: iterate over the sorted keys, render
each component (`error` token or `JSON.stringify` of the value), escape `:`,
`|`, `\` in the key, and join with `|` (separator only once the accumulator is
nonempty).  A `ComponentSet` is modelled as an association list with unique
keys; the `none` branch of the lookup is unreachable since every sorted key is
a key of the set. -/
def componentsToCanonicalString (components : List (String × Component ε)) : String :=
  (sortKeys (components.map Prod.fst)).foldl
    (fun result componentKey =>
      match components.lookup componentKey with
      | some component =>
        result ++ (if result = "" then "" else "|")
          ++ escapeKey componentKey ++ ":" ++ renderComponentValue component
      | none => result)
    ""

/-- The canonicalizer as claim C2 describes it: identical to
`componentsToCanonicalString` except that the backslash-escaping of `:`, `|`,
`\` is applied to the rendered component value as well as to the key. -/
def componentsToCanonicalStringClaim (components : List (String × Component ε)) : String :=
  (sortKeys (components.map Prod.fst)).foldl
    (fun result componentKey =>
      match components.lookup componentKey with
      | some component =>
        result ++ (if result = "" then "" else "|")
          ++ escapeKey componentKey ++ ":" ++ escapeKey (renderComponentValue component)
      | none => result)
    ""

/-- Embeds `hashComponents`: `x64hash128(componentsToCanonicalString(components))`,
seed defaulted to 0 by `seed = seed || 0`. -/
def hashComponents (components : List (String × Component ε)) : String :=
  x64hash128 (componentsToCanonicalString components)

/-- Results of the browser-environment detectors consulted by
`getOpenConfidenceScore` (`isAndroid`, `isWebKit`, ...).  The detectors read
`navigator`/`window` state outside the modelled pipeline, so their boolean
results are taken as parameters. -/
structure Env where
  isAndroid : Bool
  isWebKit : Bool
  isDesktopWebKit : Bool
  isWebKit616OrNewer : Bool
  isSafariWebKit : Bool

/-- JS string coercion of a component value (`RegExp.prototype.test` coerces
its argument to a string). -/
def jsStringOf : JsonValue → String
  | .str s => s
  | .num n => toString n
  | .bool b => if b then "true" else "false"
  | .null => "null"

/-- `/^Win/.test(platform)` / `/^Mac/.test(platform)`: an anchored-literal
regex test is a prefix check on the subject string. -/
def testPrefix (p s : String) : Bool := p.data.isPrefixOf s.data

/-- Embeds `getOpenConfidenceScore`.  `none` models the thrown `TypeError`:
when neither the Android nor the WebKit branch returns early, the code
evaluates `'value' in components.platform`, which throws if the `platform`
component is absent from the set. -/
def getOpenConfidenceScore (env : Env) (components : List (String × Component ε)) : Option Rat :=
  if env.isAndroid then some (0.4 : Rat)
  else if env.isWebKit then
    some (if env.isDesktopWebKit && !(env.isWebKit616OrNewer && env.isSafariWebKit)
      then (0.5 : Rat) else (0.3 : Rat))
  else
    match components.lookup "platform" with
    | none => none
    | some component =>
      let platform := match component with
        | .value v _ => jsStringOf v
        | .error _ _ => ""
      if testPrefix "Win" platform then some (0.6 : Rat)
      else if testPrefix "Mac" platform then some (0.5 : Rat)
      else some (0.7 : Rat)

/-- JS `Math.round` (for the nonnegative values arising here). -/
def jsRound (x : Rat) : Rat := (⌊x + 1 / 2⌋ : Int)

/-- Embeds `round(value, base)` from the source's data utilities. -/
def roundBase (value base : Rat) : Rat :=
  if 1 ≤ |base| then jsRound (value / base) * base
  else
    let counterBase := 1 / base
    jsRound (value * counterBase) / counterBase

/-- Embeds `deriveProConfidenceScore`: `round(0.99 + 0.01 * openConfidenceScore, 0.0001)`. -/
def deriveProConfidenceScore (openConfidenceScore : Rat) : Rat :=
  roundBase ((0.99 : Rat) + (0.01 : Rat) * openConfidenceScore) (0.0001 : Rat)

/-- The confidence object: `score` plus the pro score that the comment template
interpolates for its `$` placeholder (the surrounding comment text is a fixed
string carrying no further data). -/
structure Confidence where
  score : Rat
  proScoreInComment : Rat
deriving DecidableEq

/-- Embeds `getConfidence` (`none` propagates the `TypeError` of
`getOpenConfidenceScore`). -/
def getConfidence (env : Env) (components : List (String × Component ε)) : Option Confidence :=
  (getOpenConfidenceScore env components).map fun openConfidenceScore =>
    ⟨openConfidenceScore, deriveProConfidenceScore openConfidenceScore⟩

/-- The world threaded through the loader model: probe-visible mutable state
plus the upcoming `Date.now()` readings. -/
structure Wld (σ : Type) where
  user : σ
  clock : List Int

/-- `Date.now()`: consume the next clock reading. -/
def dateNow (w : Wld σ) : Int × Wld σ := (w.clock.headD 0, ⟨w.user, w.clock.tail⟩)

/-- What a source invocation settles to: a final value (`isFinalResultLoaded`)
or a second-stage getter.  `awaitIfAsync` makes thrown errors and rejections
indistinguishable from the caller's viewpoint, so both stages are modelled as
state functions returning `Except`. -/
inductive LoadResult (σ V E : Type) where
  | final (v : V)
  | getter (g : Wld σ → Wld σ × Except E V)

/-- An entropy source: the first-stage invocation. -/
structure Source (σ V E : Type) where
  load : Wld σ → Wld σ × Except E (LoadResult σ V E)

/-- A component outcome as produced by `loadSource`: exactly one of
value/error, plus the measured duration. -/
inductive Outcome (V E : Type) where
  | value (v : V) (duration : Int)
  | error (e : E) (duration : Int)
deriving DecidableEq

/-- Whether an outcome is a value outcome. -/
def Outcome.isValue : Outcome V E → Bool
  | .value _ _ => true
  | .error _ _ => false

/-- Whether an outcome is an error outcome. -/
def Outcome.isError : Outcome V E → Bool
  | .value _ _ => false
  | .error _ _ => true

/-- Embeds `loadSource`: records the start time, invokes the source once
(through `awaitIfAsync`, which catches anything thrown), computes
`loadDuration`, and resolves to a `finalizeSource` thunk.  The returned
`getComponent` function replays `finalizeSource` on every call (each call of
the source's `getComponent` runs `sourceLoadPromise.then((f) => f())`, and in
the deferred branch `finalizeSource` builds a fresh promise that re-invokes the
second-stage `loadResult`). -/
def loadSource (source : Source σ V E) (w : Wld σ) :
    (Wld σ → Wld σ × Outcome V E) × Wld σ :=
  let p1 := dateNow w
  let loadStartTime := p1.1
  let p2 := source.load p1.2
  let p3 := dateNow p2.1
  let loadDuration := p3.1 - loadStartTime
  let w1 := p3.2
  match p2.2 with
  | .error e => (fun w2 => (w2, .error e loadDuration), w1)
  | .ok (.final v) => (fun w2 => (w2, .value v loadDuration), w1)
  | .ok (.getter g) =>
    (fun w2 =>
      let q1 := dateNow w2
      let getStartTime := q1.1
      let q2 := g q1.2
      let q3 := dateNow q2.1
      let duration := loadDuration + (q3.1 - getStartTime)
      match q2.2 with
      | .ok v => (q3.2, .value v duration)
      | .error e => (q3.2, .error e duration), w1)

/-- The loop of `mapWithBreaks`: apply the callback to each item in order,
then consult `Date.now()` and possibly release the event loop (which does not
touch the results array). -/
def mapWithBreaksGo (callback : α → Nat → β) (loopReleaseInterval : Int) :
    List α → Nat → Int → List Int → List β
  | [], _, _, _ => []
  | item :: rest, i, lastLoopReleaseTime, clock =>
    let r := callback item i
    let now := clock.headD 0
    if lastLoopReleaseTime + loopReleaseInterval ≤ now then
      r :: mapWithBreaksGo callback loopReleaseInterval rest (i + 1) now clock.tail
    else
      r :: mapWithBreaksGo callback loopReleaseInterval rest (i + 1) lastLoopReleaseTime clock.tail

/-- Embeds `mapWithBreaks(items, callback, loopReleaseInterval = 16)`:
`startTime` is the initial `Date.now()` reading and `clock` the subsequent
ones. -/
def mapWithBreaks (items : List α) (callback : α → Nat → β)
    (loopReleaseInterval : Int) (startTime : Int) (clock : List Int) : List β :=
  mapWithBreaksGo callback loopReleaseInterval items 0 startTime clock

/-- Position-indexed mapping (the specified behavior the scheduler must realize). -/
def mapIdx (callback : α → Nat → β) : List α → Nat → List β
  | [], _ => []
  | item :: rest, i => callback item i :: mapIdx callback rest (i + 1)

/-- The library version constant. -/
def fingerprintVersion : String := "5.0.1"

/-- The object built by `makeLazyGetResult`: eagerly computed confidence,
the components, the `visitorIdCache` cell (initially unset), and the version.
`none` models the `TypeError` that `getConfidence` can throw. -/
structure LazyGetResult (ε : Type) where
  confidence : Confidence
  components : List (String × Component ε)
  visitorIdCache : Option String
  version : String

/-- Embeds `makeLazyGetResult`. -/
def makeLazyGetResult (env : Env) (components : List (String × Component ε)) :
    Option (LazyGetResult ε) :=
  (getConfidence env components).map fun confidence =>
    { confidence := confidence, components := components,
      visitorIdCache := none, version := fingerprintVersion }

/-- The `visitorId` getter: fill the cache on first read, then serve from it.
The boolean reports whether this read invoked `hashComponents`. -/
def visitorIdGet (r : LazyGetResult ε) : String × LazyGetResult ε × Bool :=
  match r.visitorIdCache with
  | none =>
    let h := hashComponents r.components
    (h, { r with visitorIdCache := some h }, true)
  | some v => (v, r, false)

/-- `n` successive reads of `visitorId`: the values returned, the final object
state, and how many reads invoked `hashComponents`. -/
def visitorIdReads (r : LazyGetResult ε) : Nat → List String × LazyGetResult ε × Nat
  | 0 => ([], r, 0)
  | n + 1 =>
    let p := visitorIdGet r
    let rest := visitorIdReads p.2.1 n
    (p.1 :: rest.1, rest.2.1, (if p.2.2 then 1 else 0) + rest.2.2)

/-- Joining a list of records with the `|` delimiter and no trailing delimiter,
as the specification phrases the canonical-string layout (the comparison
target for the fold inside `componentsToCanonicalString`). -/
def joinRecords : List String → String
  | [] => ""
  | [r] => r
  | r :: s :: rest => r ++ "|" ++ joinRecords (s :: rest)

/-- The record one sorted key contributes to the canonical string: escaped
name, `:`, rendered component. -/
def recordOf (components : List (String × Component ε)) (k : String) : String :=
  escapeKey k ++ ":" ++ ((components.lookup k).map renderComponentValue).getD ""

/-- Continuation form of the record join: every record preceded by `|`
(the shape the fold accumulates once the accumulator is nonempty). -/
def tailJoin (components : List (String × Component ε)) : List String → String
  | [] => ""
  | k :: ks => "|" ++ recordOf components k ++ tailJoin components ks

/-- Two component-set lookups that agree on everything the canonicalizer may
read: both absent, both errors (payloads and durations arbitrary), or both
values with equal `value` fields (durations arbitrary). -/
def sameVisible : Option (Component ε) → Option (Component ε) → Prop
  | none, none => True
  | some (.value v _), some (.value w _) => v = w
  | some (.error _ _), some (.error _ _) => True
  | _, _ => False

/-- A two-stage probe whose second-stage continuation counts its own
invocations in the world's probe-visible state and returns the old count. -/
def countingProbe : Source Nat Nat Unit :=
  ⟨fun w => (w, .ok (.getter (fun g => (⟨g.user + 1, g.clock⟩, .ok g.user))))⟩

end FP

open FP

/-! ### Arithmetic toolbox for the word-pair representation -/

theorem testBit_mulPow_add {y k : Nat} (x : Nat) (hy : y < 2 ^ k) (i : Nat) :
    (x * 2 ^ k + y).testBit i = if i < k then y.testBit i else x.testBit (i - k) := by
  by_cases hik : i < k
  · have h1 : (x * 2 ^ k + y) % 2 ^ k = y := by
      rw [Nat.add_comm, Nat.add_mul_mod_self_right, Nat.mod_eq_of_lt hy]
    rw [if_pos hik]
    calc (x * 2 ^ k + y).testBit i
        = ((x * 2 ^ k + y) % 2 ^ k).testBit i := by
          rw [Nat.testBit_mod_two_pow, decide_eq_true hik, Bool.true_and]
      _ = y.testBit i := by rw [h1]
  · have h2 : (x * 2 ^ k + y) >>> k = x := by
      rw [Nat.shiftRight_eq_div_pow]
      have hpos : 0 < 2 ^ k := Nat.pos_pow_of_pos k (by omega)
      have hy0 : y / 2 ^ k = 0 := Nat.div_eq_of_lt hy
      calc (x * 2 ^ k + y) / 2 ^ k = (2 ^ k * x + y) / 2 ^ k := by ring_nf
        _ = x + y / 2 ^ k := Nat.mul_add_div hpos x y
        _ = x := by omega
    rw [if_neg hik]
    have h3 : (x * 2 ^ k + y).testBit (k + (i - k)) = ((x * 2 ^ k + y) >>> k).testBit (i - k) :=
      (Nat.testBit_shiftRight _).symm
    rw [h2] at h3
    rw [← h3]
    congr 1
    omega

theorem mulPow_lor_eq_add {y k : Nat} (x : Nat) (hy : y < 2 ^ k) :
    x * 2 ^ k ||| y = x * 2 ^ k + y := by
  apply Nat.eq_of_testBit_eq
  intro i
  rw [Nat.testBit_lor, testBit_mulPow_add x hy i]
  have h0 : (0 : Nat) < 2 ^ k := Nat.pos_pow_of_pos k (by omega)
  have hx : (x * 2 ^ k).testBit i = if i < k then false else x.testBit (i - k) := by
    have h := testBit_mulPow_add x h0 i
    simpa [Nat.zero_testBit] using h
  rw [hx]
  by_cases hik : i < k
  · simp [hik]
  · have hyf : y.testBit i = false := Nat.testBit_lt_two_pow (by
      calc y < 2 ^ k := hy
        _ ≤ 2 ^ i := Nat.pow_le_pow_right (by omega) (by omega))
    simp [hik, hyf]

theorem mulPow_xor_eq_add {y k : Nat} (x : Nat) (hy : y < 2 ^ k) :
    x * 2 ^ k ^^^ y = x * 2 ^ k + y := by
  apply Nat.eq_of_testBit_eq
  intro i
  rw [Nat.testBit_xor, testBit_mulPow_add x hy i]
  have h0 : (0 : Nat) < 2 ^ k := Nat.pos_pow_of_pos k (by omega)
  have hx : (x * 2 ^ k).testBit i = if i < k then false else x.testBit (i - k) := by
    have h := testBit_mulPow_add x h0 i
    simpa [Nat.zero_testBit] using h
  rw [hx]
  by_cases hik : i < k
  · simp [hik]
  · have hyf : y.testBit i = false := Nat.testBit_lt_two_pow (by
      calc y < 2 ^ k := hy
        _ ≤ 2 ^ i := Nat.pow_le_pow_right (by omega) (by omega))
    simp [hik, hyf]

theorem split64_xor {b d : Nat} (a c : Nat) (hb : b < 2 ^ 32) (hd : d < 2 ^ 32) :
    (a * 2 ^ 32 + b) ^^^ (c * 2 ^ 32 + d) = (a ^^^ c) * 2 ^ 32 + (b ^^^ d) := by
  apply Nat.eq_of_testBit_eq
  intro i
  rw [Nat.testBit_xor, testBit_mulPow_add a hb i, testBit_mulPow_add c hd i,
    testBit_mulPow_add (a ^^^ c) (Nat.xor_lt_two_pow hb hd) i]
  by_cases hik : i < 32 <;> simp [hik, Nat.testBit_xor]

theorem jsShrU32_eq {s : Nat} (a : Nat) (hs : s < 32) : jsShrU32 a s = a % 4294967296 / 2 ^ s := by
  unfold jsShrU32 toUint32
  rw [Nat.mod_eq_of_lt hs, Nat.shiftRight_eq_div_pow]

theorem jsAnd32_ffff (a : Nat) : jsAnd32 a 65535 = a % 2 ^ 16 := by
  unfold jsAnd32 toUint32
  rw [show (65535 % 4294967296 : Nat) = 2 ^ 16 - 1 by norm_num, Nat.and_pow_two_sub_one_eq_mod,
    Nat.mod_mod_of_dvd _ (by norm_num)]

theorem jsOr32_jsShl16_eq {b : Nat} (a : Nat) (hb : b < 2 ^ 16) :
    jsOr32 (jsShl32 a 16) b = a % 2 ^ 16 * 2 ^ 16 + b := by
  unfold jsOr32 jsShl32 toUint32
  rw [Nat.shiftLeft_eq]
  have e1 : a % 4294967296 * 2 ^ (16 % 32) % 4294967296 % 4294967296 = a % 2 ^ 16 * 2 ^ 16 := by
    simp only [Nat.reducePow, Nat.reduceMod]
    omega
  have e2 : b % 4294967296 = b := Nat.mod_eq_of_lt (by simp only [Nat.reducePow] at hb; omega)
  rw [e1, e2]
  exact mulPow_lor_eq_add (a % 2 ^ 16) hb

theorem pow_split32 {s : Nat} (h : s ≤ 32) : 2 ^ (32 - s) * 2 ^ s = 4294967296 := by
  rw [← pow_add, show 32 - s + s = 32 from by omega]
  norm_num

theorem jsShl32_eq {s : Nat} (a : Nat) (h1 : s < 32) :
    jsShl32 a s = a % 2 ^ (32 - s) * 2 ^ s := by
  unfold jsShl32 toUint32
  rw [Nat.mod_eq_of_lt h1, Nat.shiftLeft_eq, ← pow_split32 (show s ≤ 32 from by omega),
    Nat.mul_mod_mul_right, Nat.mod_mod_of_dvd a ⟨2 ^ s, rfl⟩]

theorem jsOr32_shl_shr (a b : Nat) {s : Nat} (hs1 : 0 < s) (hs2 : s < 32) :
    jsOr32 (jsShl32 a s) (jsShrU32 b (32 - s)) =
      a % 2 ^ (32 - s) * 2 ^ s + b % 4294967296 / 2 ^ (32 - s) := by
  have hpow : 2 ^ (32 - s) * 2 ^ s = 4294967296 := pow_split32 (by omega)
  rw [jsShl32_eq a hs2, jsShrU32_eq b (by omega)]
  unfold jsOr32 toUint32
  have hx : a % 2 ^ (32 - s) * 2 ^ s < 4294967296 := by
    have h1 : a % 2 ^ (32 - s) < 2 ^ (32 - s) := Nat.mod_lt _ (Nat.pos_pow_of_pos _ (by omega))
    calc a % 2 ^ (32 - s) * 2 ^ s < 2 ^ (32 - s) * 2 ^ s :=
          mul_lt_mul_of_pos_right h1 (Nat.pos_pow_of_pos _ (by omega))
      _ = 4294967296 := hpow
  have hy : b % 4294967296 / 2 ^ (32 - s) < 2 ^ s := by
    apply Nat.div_lt_of_lt_mul
    calc b % 4294967296 < 4294967296 := Nat.mod_lt _ (by norm_num)
      _ = 2 ^ (32 - s) * 2 ^ s := hpow.symm
  have hy32 : b % 4294967296 / 2 ^ (32 - s) < 4294967296 := by
    calc b % 4294967296 / 2 ^ (32 - s) < 2 ^ s := hy
      _ ≤ 2 ^ 32 := Nat.pow_le_pow_right (by omega) (by omega)
      _ ≤ 4294967296 := by norm_num
  rw [Nat.mod_eq_of_lt hx, Nat.mod_eq_of_lt hy32]
  exact mulPow_lor_eq_add _ hy

theorem x64Add_val (m n : Nat × Nat) : val (x64Add m n) = (val m + val n) % 2 ^ 64 := by
  obtain ⟨mh, ml⟩ := m
  obtain ⟨nh, nl⟩ := n
  simp only [x64Add]
  rw [jsOr32_jsShl16_eq _ (by rw [jsAnd32_ffff]; simp only [Nat.reducePow]; omega),
    jsOr32_jsShl16_eq _ (by rw [jsAnd32_ffff]; simp only [Nat.reducePow]; omega)]
  simp only [jsAnd32_ffff, jsShrU32_eq _ (by norm_num : (16:Nat) < 32), val]
  simp only [Nat.reducePow]
  have Hmh : mh % 4294967296 = mh % 4294967296 / 65536 * 65536 + mh % 65536 := by omega
  have Hml : ml % 4294967296 = ml % 4294967296 / 65536 * 65536 + ml % 65536 := by omega
  have Hnh : nh % 4294967296 = nh % 4294967296 / 65536 * 65536 + nh % 65536 := by omega
  have Hnl : nl % 4294967296 = nl % 4294967296 / 65536 * 65536 + nl % 65536 := by omega
  conv_rhs => rw [Hmh, Hml, Hnh, Hnl]
  generalize hga0 : mh % 4294967296 / 65536 = a0
  generalize hga1 : mh % 65536 = a1
  generalize hga2 : ml % 4294967296 / 65536 = a2
  generalize hga3 : ml % 65536 = a3
  generalize hgb0 : nh % 4294967296 / 65536 = b0
  generalize hgb1 : nh % 65536 = b1
  generalize hgb2 : nl % 4294967296 / 65536 = b2
  generalize hgb3 : nl % 65536 = b3
  have ha0 : a0 < 65536 := by omega
  have ha1 : a1 < 65536 := by omega
  have ha2 : a2 < 65536 := by omega
  have ha3 : a3 < 65536 := by omega
  have hb0 : b0 < 65536 := by omega
  have hb1 : b1 < 65536 := by omega
  have hb2 : b2 < 65536 := by omega
  have hb3 : b3 < 65536 := by omega
  clear hga0 hga1 hga2 hga3 hgb0 hgb1 hgb2 hgb3
  omega

theorem x64Multiply_val (m n : Nat × Nat) : val (x64Multiply m n) = val m * val n % 2 ^ 64 := by
  obtain ⟨mh, ml⟩ := m
  obtain ⟨nh, nl⟩ := n
  simp only [x64Multiply]
  rw [jsOr32_jsShl16_eq _ (by rw [jsAnd32_ffff]; simp only [Nat.reducePow]; omega),
    jsOr32_jsShl16_eq _ (by rw [jsAnd32_ffff]; simp only [Nat.reducePow]; omega)]
  simp only [jsAnd32_ffff, jsShrU32_eq _ (by norm_num : (16:Nat) < 32), val]
  simp only [Nat.reducePow]
  have Hmh : mh % 4294967296 = mh % 4294967296 / 65536 * 65536 + mh % 65536 := by omega
  have Hml : ml % 4294967296 = ml % 4294967296 / 65536 * 65536 + ml % 65536 := by omega
  have Hnh : nh % 4294967296 = nh % 4294967296 / 65536 * 65536 + nh % 65536 := by omega
  have Hnl : nl % 4294967296 = nl % 4294967296 / 65536 * 65536 + nl % 65536 := by omega
  conv_rhs => rw [Hmh, Hml, Hnh, Hnl]
  generalize hga0 : mh % 4294967296 / 65536 = a0
  generalize hga1 : mh % 65536 = a1
  generalize hga2 : ml % 4294967296 / 65536 = a2
  generalize hga3 : ml % 65536 = a3
  generalize hgb0 : nh % 4294967296 / 65536 = b0
  generalize hgb1 : nh % 65536 = b1
  generalize hgb2 : nl % 4294967296 / 65536 = b2
  generalize hgb3 : nl % 65536 = b3
  have ha0 : a0 < 65536 := by omega
  have ha1 : a1 < 65536 := by omega
  have ha2 : a2 < 65536 := by omega
  have ha3 : a3 < 65536 := by omega
  have hb0 : b0 < 65536 := by omega
  have hb1 : b1 < 65536 := by omega
  have hb2 : b2 < 65536 := by omega
  have hb3 : b3 < 65536 := by omega
  clear hga0 hga1 hga2 hga3 hgb0 hgb1 hgb2 hgb3
  have key : ((a0 * 65536 + a1) * 4294967296 + (a2 * 65536 + a3))
      * ((b0 * 65536 + b1) * 4294967296 + (b2 * 65536 + b3))
      = (a3 * b3 + (a2 * b3 + a3 * b2) * 65536 + (a1 * b3 + a2 * b2 + a3 * b1) * 4294967296
          + (a0 * b3 + a1 * b2 + a2 * b1 + a3 * b0) * 281474976710656)
        + 18446744073709551616
          * (a0 * b2 + a1 * b1 + a2 * b0 + (a0 * b1 + a1 * b0) * 65536 + a0 * b0 * 4294967296) := by
    ring
  rw [key, Nat.add_mul_mod_self_left]
  have hp33 : a3 * b3 ≤ 65535 * 65535 := Nat.mul_le_mul (by omega) (by omega)
  have hp23 : a2 * b3 ≤ 65535 * 65535 := Nat.mul_le_mul (by omega) (by omega)
  have hp32 : a3 * b2 ≤ 65535 * 65535 := Nat.mul_le_mul (by omega) (by omega)
  have hp13 : a1 * b3 ≤ 65535 * 65535 := Nat.mul_le_mul (by omega) (by omega)
  have hp22 : a2 * b2 ≤ 65535 * 65535 := Nat.mul_le_mul (by omega) (by omega)
  have hp31 : a3 * b1 ≤ 65535 * 65535 := Nat.mul_le_mul (by omega) (by omega)
  have hp03 : a0 * b3 ≤ 65535 * 65535 := Nat.mul_le_mul (by omega) (by omega)
  have hp12 : a1 * b2 ≤ 65535 * 65535 := Nat.mul_le_mul (by omega) (by omega)
  have hp21 : a2 * b1 ≤ 65535 * 65535 := Nat.mul_le_mul (by omega) (by omega)
  have hp30 : a3 * b0 ≤ 65535 * 65535 := Nat.mul_le_mul (by omega) (by omega)
  revert hp33 hp23 hp32 hp13 hp22 hp31 hp03 hp12 hp21 hp30
  generalize a3 * b3 = p33
  generalize a2 * b3 = p23
  generalize a3 * b2 = p32
  generalize a1 * b3 = p13
  generalize a2 * b2 = p22
  generalize a3 * b1 = p31
  generalize a0 * b3 = p03
  generalize a1 * b2 = p12
  generalize a2 * b1 = p21
  generalize a3 * b0 = p30
  intro hp33 hp23 hp32 hp13 hp22 hp31 hp03 hp12 hp21 hp30
  rw [Nat.mod_eq_of_lt (show p33 < 4294967296 by omega)]
  rw [Nat.mod_eq_of_lt (show p33 / 65536 + p23 < 4294967296 by omega)]
  rw [Nat.mod_eq_of_lt (show (p33 / 65536 + p23) % 65536 + p32 < 4294967296 by omega)]
  rw [Nat.mod_eq_of_lt (show (p33 / 65536 + p23) / 65536
      + ((p33 / 65536 + p23) % 65536 + p32) / 65536 + p13 < 4294967296 by omega)]
  rw [Nat.mod_eq_of_lt (show ((p33 / 65536 + p23) / 65536
      + ((p33 / 65536 + p23) % 65536 + p32) / 65536 + p13) % 65536 + p22 < 4294967296 by omega)]
  rw [Nat.mod_eq_of_lt (show (((p33 / 65536 + p23) / 65536
      + ((p33 / 65536 + p23) % 65536 + p32) / 65536 + p13) % 65536 + p22) % 65536 + p31
      < 4294967296 by omega)]
  omega

theorem x64Xor_val (m n : Nat × Nat) : val (x64Xor m n) = val m ^^^ val n := by
  obtain ⟨mh, ml⟩ := m
  obtain ⟨nh, nl⟩ := n
  simp only [x64Xor, jsXor32, toUint32, val]
  rw [show (4294967296 : Nat) = 2 ^ 32 by norm_num]
  have b1 : mh % 2 ^ 32 ^^^ nh % 2 ^ 32 < 2 ^ 32 :=
    Nat.xor_lt_two_pow (Nat.mod_lt _ (by positivity)) (Nat.mod_lt _ (by positivity))
  have b2 : ml % 2 ^ 32 ^^^ nl % 2 ^ 32 < 2 ^ 32 :=
    Nat.xor_lt_two_pow (Nat.mod_lt _ (by positivity)) (Nat.mod_lt _ (by positivity))
  rw [Nat.mod_eq_of_lt b1, Nat.mod_eq_of_lt b2]
  exact (split64_xor _ _ (Nat.mod_lt _ (by positivity)) (Nat.mod_lt _ (by positivity))).symm

theorem jsOr32_shl_shr_exp (a b s t : Nat) (hst : s + t = 32) (hs1 : 0 < s) (ht1 : 0 < t) :
    jsOr32 (jsShl32 a s) (jsShrU32 b t) = a % 2 ^ t * 2 ^ s + b % 4294967296 / 2 ^ t := by
  have h := jsOr32_shl_shr a b (s := s) hs1 (by omega)
  rw [show 32 - s = t from by omega] at h
  exact h

theorem val_lt (m : Nat × Nat) : val m < 2 ^ 64 := by
  obtain ⟨mh, ml⟩ := m
  simp only [val, Nat.reducePow]
  omega

theorem x64Rotl_val_27 (m : Nat × Nat) :
    val (x64Rotl m 27) = val m % 2 ^ 37 * 2 ^ 27 + val m / 2 ^ 37 := by
  obtain ⟨mh, ml⟩ := m
  simp only [x64Rotl, Nat.reduceMod, Nat.reduceEqDiff, reduceIte, Nat.reduceLT, Nat.reduceSub]
  rw [jsOr32_shl_shr_exp mh ml 27 5 (by norm_num) (by norm_num) (by norm_num),
    jsOr32_shl_shr_exp ml mh 27 5 (by norm_num) (by norm_num) (by norm_num)]
  simp only [val, Nat.reducePow]
  rw [Nat.mod_eq_of_lt (show mh % 32 * 134217728 + ml % 4294967296 / 32 < 4294967296 by omega),
    Nat.mod_eq_of_lt (show ml % 32 * 134217728 + mh % 4294967296 / 32 < 4294967296 by omega)]
  omega

theorem x64Rotl_val_31 (m : Nat × Nat) :
    val (x64Rotl m 31) = val m % 2 ^ 33 * 2 ^ 31 + val m / 2 ^ 33 := by
  obtain ⟨mh, ml⟩ := m
  simp only [x64Rotl, Nat.reduceMod, Nat.reduceEqDiff, reduceIte, Nat.reduceLT, Nat.reduceSub]
  rw [jsOr32_shl_shr_exp mh ml 31 1 (by norm_num) (by norm_num) (by norm_num),
    jsOr32_shl_shr_exp ml mh 31 1 (by norm_num) (by norm_num) (by norm_num)]
  simp only [val, Nat.reducePow]
  rw [Nat.mod_eq_of_lt (show mh % 2 * 2147483648 + ml % 4294967296 / 2 < 4294967296 by omega),
    Nat.mod_eq_of_lt (show ml % 2 * 2147483648 + mh % 4294967296 / 2 < 4294967296 by omega)]
  omega

theorem x64Rotl_val_33 (m : Nat × Nat) :
    val (x64Rotl m 33) = val m % 2 ^ 31 * 2 ^ 33 + val m / 2 ^ 31 := by
  obtain ⟨mh, ml⟩ := m
  simp only [x64Rotl, Nat.reduceMod, Nat.reduceEqDiff, reduceIte, Nat.reduceLT, Nat.reduceSub]
  rw [jsOr32_shl_shr_exp ml mh 1 31 (by norm_num) (by norm_num) (by norm_num),
    jsOr32_shl_shr_exp mh ml 1 31 (by norm_num) (by norm_num) (by norm_num)]
  simp only [val, Nat.reducePow]
  rw [Nat.mod_eq_of_lt (show ml % 2147483648 * 2 + mh % 4294967296 / 2147483648 < 4294967296 by omega),
    Nat.mod_eq_of_lt (show mh % 2147483648 * 2 + ml % 4294967296 / 2147483648 < 4294967296 by omega)]
  omega

theorem x64LeftShift_small (v b s : Nat) (hb : b < 256) (h1 : 0 < s) (h2 : s ≤ 24) :
    x64LeftShift (v, b) s = (0, b * 2 ^ s) := by
  have hs : s % 64 = s := Nat.mod_eq_of_lt (by omega)
  simp only [x64LeftShift, hs]
  rw [if_neg (by omega), if_pos (by omega)]
  have hb32 : b < 2 ^ (32 - s) := by
    calc b < 256 := hb
      _ ≤ 2 ^ (32 - s) := by
          calc (256 : Nat) = 2 ^ 8 := by norm_num
            _ ≤ 2 ^ (32 - s) := Nat.pow_le_pow_right (by omega) (by omega)
  rw [jsShrU32_eq b (by omega), jsShl32_eq b (by omega),
    Nat.mod_eq_of_lt (show b < 4294967296 by omega), Nat.div_eq_of_lt hb32,
    Nat.mod_eq_of_lt hb32]

theorem x64LeftShift_big (v b s : Nat) (hb : b < 256) (h1 : 32 ≤ s) (h2 : s ≤ 56) :
    x64LeftShift (v, b) s = (b * 2 ^ (s - 32), 0) := by
  have hs : s % 64 = s := Nat.mod_eq_of_lt (by omega)
  simp only [x64LeftShift, hs]
  rw [if_neg (by omega), if_neg (by omega)]
  have hb32 : b < 2 ^ (32 - (s - 32)) := by
    calc b < 256 := hb
      _ ≤ 2 ^ (32 - (s - 32)) := by
          calc (256 : Nat) = 2 ^ 8 := by norm_num
            _ ≤ 2 ^ (32 - (s - 32)) := Nat.pow_le_pow_right (by omega) (by omega)
  rw [jsShl32_eq b (by omega), Nat.mod_eq_of_lt hb32]

theorem val_zero_shr1 (w : Nat × Nat) : val (0, jsShrU32 w.1 1) = val w >>> 33 := by
  obtain ⟨wh, wl⟩ := w
  simp only [val, jsShrU32_eq _ (by norm_num : (1:Nat) < 32), Nat.shiftRight_eq_div_pow,
    Nat.reducePow]
  omega

theorem val_F1 : val F1 = 0xff51afd7ed558ccd := rfl

theorem val_F2 : val F2 = 0xc4ceb9fe1a85ec53 := rfl

theorem val_C1 : val C1 = MurmurSpec.SC1 := rfl

theorem val_C2 : val C2 = MurmurSpec.SC2 := rfl

theorem val_M5 : val M5 = 5 := rfl

theorem val_N1 : val N1 = 0x52dce729 := rfl

theorem val_N2 : val N2 = 0x38495ab5 := rfl

theorem x64Fmix_val (h : Nat × Nat) : val (x64Fmix h) = MurmurSpec.fmix64 (val h) := by
  dsimp only [x64Fmix]
  rw [x64Xor_val, val_zero_shr1, x64Multiply_val, x64Xor_val, val_zero_shr1, x64Multiply_val,
    x64Xor_val, val_zero_shr1, val_F1, val_F2]
  rfl

theorem rotl64_arith (x : Nat) {r : Nat} (h1 : 0 < r) (h2 : r < 64) :
    MurmurSpec.rotl64 x r = x % 2 ^ (64 - r) * 2 ^ r + x % 2 ^ 64 / 2 ^ (64 - r) := by
  have hpow : 2 ^ (64 - r) * 2 ^ r = 2 ^ 64 := by
    rw [← pow_add, show 64 - r + r = 64 from by omega]
  unfold MurmurSpec.rotl64
  rw [Nat.shiftLeft_eq, Nat.shiftRight_eq_div_pow, ← hpow, Nat.mul_mod_mul_right]
  have hy : x % (2 ^ (64 - r) * 2 ^ r) / 2 ^ (64 - r) < 2 ^ r := by
    apply Nat.div_lt_of_lt_mul
    exact Nat.mod_lt _ (by positivity)
  exact mulPow_lor_eq_add _ hy

theorem mixK1_val (k : Nat × Nat) :
    val (x64Multiply (x64Rotl (x64Multiply k C1) 31) C2) = MurmurSpec.mixK1 (val k) := by
  rw [x64Multiply_val, x64Rotl_val_31, x64Multiply_val, val_C1, val_C2]
  unfold MurmurSpec.mixK1
  rw [rotl64_arith _ (by omega) (by omega)]
  have e : val k * MurmurSpec.SC1 % 2 ^ 64 % 2 ^ 64 = val k * MurmurSpec.SC1 % 2 ^ 64 :=
    Nat.mod_mod_of_dvd _ dvd_rfl
  rw [e]

theorem mixK2_val (k : Nat × Nat) :
    val (x64Multiply (x64Rotl (x64Multiply k C2) 33) C1) = MurmurSpec.mixK2 (val k) := by
  rw [x64Multiply_val, x64Rotl_val_33, x64Multiply_val, val_C1, val_C2]
  unfold MurmurSpec.mixK2
  rw [rotl64_arith _ (by omega) (by omega)]
  have e : val k * MurmurSpec.SC2 % 2 ^ 64 % 2 ^ 64 = val k * MurmurSpec.SC2 % 2 ^ 64 :=
    Nat.mod_mod_of_dvd _ dvd_rfl
  rw [e]

theorem xor64_lt (a b : Nat) (ha : a < 2 ^ 64) (hb : b < 2 ^ 64) : a ^^^ b < 2 ^ 64 :=
  Nat.xor_lt_two_pow ha hb

theorem mixK1_lt (x : Nat) : MurmurSpec.mixK1 x < 2 ^ 64 := Nat.mod_lt _ (by positivity)

theorem mixK2_lt (x : Nat) : MurmurSpec.mixK2 x < 2 ^ 64 := Nat.mod_lt _ (by positivity)

theorem blockStep_val (h1 h2 k1 k2 : Nat × Nat) :
    val (blockStep h1 h2 k1 k2).1
      = ((MurmurSpec.rotl64 (val h1 ^^^ MurmurSpec.mixK1 (val k1)) 27 + val h2) % 2 ^ 64 * 5 % 2 ^ 64
          + 0x52dce729) % 2 ^ 64
    ∧ val (blockStep h1 h2 k1 k2).2
      = ((MurmurSpec.rotl64
            (val h2 ^^^ MurmurSpec.mixK2 (val k2)) 31
          + ((MurmurSpec.rotl64 (val h1 ^^^ MurmurSpec.mixK1 (val k1)) 27 + val h2) % 2 ^ 64 * 5 % 2 ^ 64
              + 0x52dce729) % 2 ^ 64) % 2 ^ 64 * 5 % 2 ^ 64
          + 0x38495ab5) % 2 ^ 64 := by
  dsimp only [blockStep]
  constructor
  · rw [x64Add_val, x64Multiply_val, x64Add_val, x64Rotl_val_27, x64Xor_val, mixK1_val,
      val_M5, val_N1]
    rw [rotl64_arith _ (by omega) (by omega)]
    rw [Nat.mod_eq_of_lt (xor64_lt _ _ (val_lt h1) (mixK1_lt _))]
  · rw [x64Add_val, x64Multiply_val, x64Add_val, x64Rotl_val_31, x64Xor_val, mixK2_val,
      val_M5, val_N2]
    rw [x64Add_val, x64Multiply_val, x64Add_val, x64Rotl_val_27, x64Xor_val, mixK1_val,
      val_M5, val_N1]
    rw [rotl64_arith (val h2 ^^^ MurmurSpec.mixK2 (val k2)) (by omega) (by omega),
      rotl64_arith (val h1 ^^^ MurmurSpec.mixK1 (val k1)) (by omega) (by omega)]
    rw [Nat.mod_eq_of_lt (xor64_lt _ _ (val_lt h2) (mixK2_lt _)),
      Nat.mod_eq_of_lt (xor64_lt _ _ (val_lt h1) (mixK1_lt _))]

theorem jsOr32_byte_add {y k : Nat} (x : Nat) (hk : k ≤ 32) (hx : x * 2 ^ k < 4294967296)
    (hy : y < 2 ^ k) : jsOr32 y (x * 2 ^ k) = x * 2 ^ k + y := by
  unfold jsOr32 toUint32
  have hy32 : y < 4294967296 :=
    lt_of_lt_of_le hy (le_trans (Nat.pow_le_pow_right (by omega) hk) (by norm_num))
  rw [Nat.mod_eq_of_lt hx, Nat.mod_eq_of_lt hy32, Nat.lor_comm]
  exact mulPow_lor_eq_add x hy

theorem read4_val (b0 b1 b2 b3 : Nat) (h0 : b0 < 256) (h1 : b1 < 256) (h2 : b2 < 256)
    (h3 : b3 < 256) :
    jsOr32 (jsOr32 (jsOr32 b0 (jsShl32 b1 8)) (jsShl32 b2 16)) (jsShl32 b3 24)
      = b0 + b1 * 2 ^ 8 + b2 * 2 ^ 16 + b3 * 2 ^ 24 := by
  rw [jsShl32_eq b1 (by norm_num), jsShl32_eq b2 (by norm_num), jsShl32_eq b3 (by norm_num)]
  simp only [Nat.reduceSub]
  rw [Nat.mod_eq_of_lt (show b1 < 2 ^ 24 by omega),
    Nat.mod_eq_of_lt (show b2 < 2 ^ 16 by omega),
    Nat.mod_eq_of_lt (show b3 < 2 ^ 8 by omega)]
  rw [jsOr32_byte_add b1 (by omega) (by omega) (by omega)]
  rw [jsOr32_byte_add b2 (by omega) (by omega) (by omega)]
  rw [jsOr32_byte_add b3 (by omega) (by omega) (by omega)]
  omega

theorem val_zero_lo (b : Nat) (h : b < 4294967296) : val (0, b) = b := by
  simp only [val]
  omega

theorem val_hi_zero (a : Nat) (h : a < 4294967296) : val (a, 0) = a * 4294967296 := by
  simp only [val]
  omega


theorem getD_lt_256 (key : List Nat) (hkey : ∀ b ∈ key, b < 256) (j : Nat) :
    key.getD j 0 < 256 := by
  rcases Nat.lt_or_ge j key.length with h | h
  · rw [List.getD_eq_getElem?_getD, List.getElem?_eq_getElem h]
    exact hkey _ (List.getElem_mem h)
  · rw [List.getD_eq_default _ _ h]
    omega

theorem x64LeftShift_big_exp (v b s t : Nat) (hb : b < 256) (hst : s = t + 32) (h2 : t ≤ 24) :
    x64LeftShift (v, b) s = (b * 2 ^ t, 0) := by
  subst hst
  have h := x64LeftShift_big v b (t + 32) hb (by omega) (by omega)
  simpa using h

theorem tailCase1_h1 (key : List Nat) (i : Nat) (s : MState) :
    val (tailCase1 key i s).h1
      = val s.h1 ^^^ MurmurSpec.mixK1 (val s.k1 ^^^ val (s.tv.1, key.getD i 0)) := by
  simp only [tailCase1]
  rw [x64Xor_val, mixK1_val, x64Xor_val]

theorem tailCase1_h2 (key : List Nat) (i : Nat) (s : MState) :
    (tailCase1 key i s).h2 = s.h2 := rfl


theorem tailCase2_h1 (key : List Nat) (i : Nat) (s : MState)
    (hkey : ∀ b ∈ key, b < 256) :
    val (tailCase2 key i s).h1
      = val s.h1 ^^^ MurmurSpec.mixK1 (val s.k1 ^^^ (key.getD (i + 1) 0 * 2 ^ 8 + (key.getD i 0))) := by
  simp only [tailCase2]
  rw [x64LeftShift_small _ _ 8 (getD_lt_256 key hkey (i + 1)) (by omega) (by omega)]
  rw [tailCase1_h1 key i]
  dsimp only
  rw [val_zero_lo _ (by have := getD_lt_256 key hkey i; omega)]
  rw [x64Xor_val, val_zero_lo _ (by have := getD_lt_256 key hkey (i + 1); omega)]
  rw [Nat.xor_assoc, mulPow_xor_eq_add _ (show (key.getD i 0) < 2 ^ 8 from by
    have hb0 := getD_lt_256 key hkey i
    omega)]

theorem tailCase2_h2 (key : List Nat) (i : Nat) (s : MState) :
    (tailCase2 key i s).h2 = s.h2 := by
  simp only [tailCase2]
  rw [tailCase1_h2]


theorem tailCase3_h1 (key : List Nat) (i : Nat) (s : MState)
    (hkey : ∀ b ∈ key, b < 256) :
    val (tailCase3 key i s).h1
      = val s.h1 ^^^ MurmurSpec.mixK1 (val s.k1 ^^^ (key.getD (i + 2) 0 * 2 ^ 16 + (key.getD (i + 1) 0 * 2 ^ 8 + (key.getD i 0)))) := by
  simp only [tailCase3]
  rw [x64LeftShift_small _ _ 16 (getD_lt_256 key hkey (i + 2)) (by omega) (by omega)]
  rw [tailCase2_h1 key i _ hkey]
  dsimp only
  rw [x64Xor_val, val_zero_lo _ (by have := getD_lt_256 key hkey (i + 2); omega)]
  rw [Nat.xor_assoc, mulPow_xor_eq_add _ (show (key.getD (i + 1) 0 * 2 ^ 8 + (key.getD i 0)) < 2 ^ 16 from by
    have hb0 := getD_lt_256 key hkey i
    have hb1 := getD_lt_256 key hkey (i + 1)
    omega)]

theorem tailCase3_h2 (key : List Nat) (i : Nat) (s : MState) :
    (tailCase3 key i s).h2 = s.h2 := by
  simp only [tailCase3]
  rw [tailCase2_h2]


theorem tailCase4_h1 (key : List Nat) (i : Nat) (s : MState)
    (hkey : ∀ b ∈ key, b < 256) :
    val (tailCase4 key i s).h1
      = val s.h1 ^^^ MurmurSpec.mixK1 (val s.k1 ^^^ (key.getD (i + 3) 0 * 2 ^ 24 + (key.getD (i + 2) 0 * 2 ^ 16 + (key.getD (i + 1) 0 * 2 ^ 8 + (key.getD i 0))))) := by
  simp only [tailCase4]
  rw [x64LeftShift_small _ _ 24 (getD_lt_256 key hkey (i + 3)) (by omega) (by omega)]
  rw [tailCase3_h1 key i _ hkey]
  dsimp only
  rw [x64Xor_val, val_zero_lo _ (by have := getD_lt_256 key hkey (i + 3); omega)]
  rw [Nat.xor_assoc, mulPow_xor_eq_add _ (show (key.getD (i + 2) 0 * 2 ^ 16 + (key.getD (i + 1) 0 * 2 ^ 8 + (key.getD i 0))) < 2 ^ 24 from by
    have hb0 := getD_lt_256 key hkey i
    have hb1 := getD_lt_256 key hkey (i + 1)
    have hb2 := getD_lt_256 key hkey (i + 2)
    omega)]

theorem tailCase4_h2 (key : List Nat) (i : Nat) (s : MState) :
    (tailCase4 key i s).h2 = s.h2 := by
  simp only [tailCase4]
  rw [tailCase3_h2]


theorem tailCase5_h1 (key : List Nat) (i : Nat) (s : MState)
    (hkey : ∀ b ∈ key, b < 256) :
    val (tailCase5 key i s).h1
      = val s.h1 ^^^ MurmurSpec.mixK1 (val s.k1 ^^^ (key.getD (i + 4) 0 * 2 ^ 32 + (key.getD (i + 3) 0 * 2 ^ 24 + (key.getD (i + 2) 0 * 2 ^ 16 + (key.getD (i + 1) 0 * 2 ^ 8 + (key.getD i 0)))))) := by
  simp only [tailCase5]
  rw [x64LeftShift_big_exp _ _ 32 0 (getD_lt_256 key hkey (i + 4)) (by omega) (by omega)]
  rw [tailCase4_h1 key i _ hkey]
  dsimp only
  rw [x64Xor_val, val_hi_zero _ (by have := getD_lt_256 key hkey (i + 4); omega),
    show key.getD (i + 4) 0 * 2 ^ 0 * 4294967296 = key.getD (i + 4) 0 * 2 ^ 32 from by ring]
  rw [Nat.xor_assoc, mulPow_xor_eq_add _ (show (key.getD (i + 3) 0 * 2 ^ 24 + (key.getD (i + 2) 0 * 2 ^ 16 + (key.getD (i + 1) 0 * 2 ^ 8 + (key.getD i 0)))) < 2 ^ 32 from by
    have hb0 := getD_lt_256 key hkey i
    have hb1 := getD_lt_256 key hkey (i + 1)
    have hb2 := getD_lt_256 key hkey (i + 2)
    have hb3 := getD_lt_256 key hkey (i + 3)
    omega)]

theorem tailCase5_h2 (key : List Nat) (i : Nat) (s : MState) :
    (tailCase5 key i s).h2 = s.h2 := by
  simp only [tailCase5]
  rw [tailCase4_h2]


theorem tailCase6_h1 (key : List Nat) (i : Nat) (s : MState)
    (hkey : ∀ b ∈ key, b < 256) :
    val (tailCase6 key i s).h1
      = val s.h1 ^^^ MurmurSpec.mixK1 (val s.k1 ^^^ (key.getD (i + 5) 0 * 2 ^ 40 + (key.getD (i + 4) 0 * 2 ^ 32 + (key.getD (i + 3) 0 * 2 ^ 24 + (key.getD (i + 2) 0 * 2 ^ 16 + (key.getD (i + 1) 0 * 2 ^ 8 + (key.getD i 0))))))) := by
  simp only [tailCase6]
  rw [x64LeftShift_big_exp _ _ 40 8 (getD_lt_256 key hkey (i + 5)) (by omega) (by omega)]
  rw [tailCase5_h1 key i _ hkey]
  dsimp only
  rw [x64Xor_val, val_hi_zero _ (by have := getD_lt_256 key hkey (i + 5); omega),
    show key.getD (i + 5) 0 * 2 ^ 8 * 4294967296 = key.getD (i + 5) 0 * 2 ^ 40 from by ring]
  rw [Nat.xor_assoc, mulPow_xor_eq_add _ (show (key.getD (i + 4) 0 * 2 ^ 32 + (key.getD (i + 3) 0 * 2 ^ 24 + (key.getD (i + 2) 0 * 2 ^ 16 + (key.getD (i + 1) 0 * 2 ^ 8 + (key.getD i 0))))) < 2 ^ 40 from by
    have hb0 := getD_lt_256 key hkey i
    have hb1 := getD_lt_256 key hkey (i + 1)
    have hb2 := getD_lt_256 key hkey (i + 2)
    have hb3 := getD_lt_256 key hkey (i + 3)
    have hb4 := getD_lt_256 key hkey (i + 4)
    omega)]

theorem tailCase6_h2 (key : List Nat) (i : Nat) (s : MState) :
    (tailCase6 key i s).h2 = s.h2 := by
  simp only [tailCase6]
  rw [tailCase5_h2]


theorem tailCase7_h1 (key : List Nat) (i : Nat) (s : MState)
    (hkey : ∀ b ∈ key, b < 256) :
    val (tailCase7 key i s).h1
      = val s.h1 ^^^ MurmurSpec.mixK1 (val s.k1 ^^^ (key.getD (i + 6) 0 * 2 ^ 48 + (key.getD (i + 5) 0 * 2 ^ 40 + (key.getD (i + 4) 0 * 2 ^ 32 + (key.getD (i + 3) 0 * 2 ^ 24 + (key.getD (i + 2) 0 * 2 ^ 16 + (key.getD (i + 1) 0 * 2 ^ 8 + (key.getD i 0)))))))) := by
  simp only [tailCase7]
  rw [x64LeftShift_big_exp _ _ 48 16 (getD_lt_256 key hkey (i + 6)) (by omega) (by omega)]
  rw [tailCase6_h1 key i _ hkey]
  dsimp only
  rw [x64Xor_val, val_hi_zero _ (by have := getD_lt_256 key hkey (i + 6); omega),
    show key.getD (i + 6) 0 * 2 ^ 16 * 4294967296 = key.getD (i + 6) 0 * 2 ^ 48 from by ring]
  rw [Nat.xor_assoc, mulPow_xor_eq_add _ (show (key.getD (i + 5) 0 * 2 ^ 40 + (key.getD (i + 4) 0 * 2 ^ 32 + (key.getD (i + 3) 0 * 2 ^ 24 + (key.getD (i + 2) 0 * 2 ^ 16 + (key.getD (i + 1) 0 * 2 ^ 8 + (key.getD i 0)))))) < 2 ^ 48 from by
    have hb0 := getD_lt_256 key hkey i
    have hb1 := getD_lt_256 key hkey (i + 1)
    have hb2 := getD_lt_256 key hkey (i + 2)
    have hb3 := getD_lt_256 key hkey (i + 3)
    have hb4 := getD_lt_256 key hkey (i + 4)
    have hb5 := getD_lt_256 key hkey (i + 5)
    omega)]

theorem tailCase7_h2 (key : List Nat) (i : Nat) (s : MState) :
    (tailCase7 key i s).h2 = s.h2 := by
  simp only [tailCase7]
  rw [tailCase6_h2]


theorem tailCase8_h1 (key : List Nat) (i : Nat) (s : MState)
    (hkey : ∀ b ∈ key, b < 256) :
    val (tailCase8 key i s).h1
      = val s.h1 ^^^ MurmurSpec.mixK1 (val s.k1 ^^^ (key.getD (i + 7) 0 * 2 ^ 56 + (key.getD (i + 6) 0 * 2 ^ 48 + (key.getD (i + 5) 0 * 2 ^ 40 + (key.getD (i + 4) 0 * 2 ^ 32 + (key.getD (i + 3) 0 * 2 ^ 24 + (key.getD (i + 2) 0 * 2 ^ 16 + (key.getD (i + 1) 0 * 2 ^ 8 + (key.getD i 0))))))))) := by
  simp only [tailCase8]
  rw [x64LeftShift_big_exp _ _ 56 24 (getD_lt_256 key hkey (i + 7)) (by omega) (by omega)]
  rw [tailCase7_h1 key i _ hkey]
  dsimp only
  rw [x64Xor_val, val_hi_zero _ (by have := getD_lt_256 key hkey (i + 7); omega),
    show key.getD (i + 7) 0 * 2 ^ 24 * 4294967296 = key.getD (i + 7) 0 * 2 ^ 56 from by ring]
  rw [Nat.xor_assoc, mulPow_xor_eq_add _ (show (key.getD (i + 6) 0 * 2 ^ 48 + (key.getD (i + 5) 0 * 2 ^ 40 + (key.getD (i + 4) 0 * 2 ^ 32 + (key.getD (i + 3) 0 * 2 ^ 24 + (key.getD (i + 2) 0 * 2 ^ 16 + (key.getD (i + 1) 0 * 2 ^ 8 + (key.getD i 0))))))) < 2 ^ 56 from by
    have hb0 := getD_lt_256 key hkey i
    have hb1 := getD_lt_256 key hkey (i + 1)
    have hb2 := getD_lt_256 key hkey (i + 2)
    have hb3 := getD_lt_256 key hkey (i + 3)
    have hb4 := getD_lt_256 key hkey (i + 4)
    have hb5 := getD_lt_256 key hkey (i + 5)
    have hb6 := getD_lt_256 key hkey (i + 6)
    omega)]

theorem tailCase8_h2 (key : List Nat) (i : Nat) (s : MState) :
    (tailCase8 key i s).h2 = s.h2 := by
  simp only [tailCase8]
  rw [tailCase7_h2]


theorem tailCase9_h1 (key : List Nat) (i : Nat) (s : MState)
    (hkey : ∀ b ∈ key, b < 256) :
    val (tailCase9 key i s).h1
      = val s.h1 ^^^ MurmurSpec.mixK1 (val s.k1 ^^^ (key.getD (i + 7) 0 * 2 ^ 56 + (key.getD (i + 6) 0 * 2 ^ 48 + (key.getD (i + 5) 0 * 2 ^ 40 + (key.getD (i + 4) 0 * 2 ^ 32 + (key.getD (i + 3) 0 * 2 ^ 24 + (key.getD (i + 2) 0 * 2 ^ 16 + (key.getD (i + 1) 0 * 2 ^ 8 + (key.getD i 0))))))))) := by
  simp only [tailCase9]
  rw [tailCase8_h1 key i _ hkey]

theorem tailCase9_h2 (key : List Nat) (i : Nat) (s : MState) :
    val (tailCase9 key i s).h2
      = val s.h2 ^^^ MurmurSpec.mixK2 (val s.k2 ^^^ val (s.tv.1, key.getD (i + 8) 0)) := by
  simp only [tailCase9]
  rw [tailCase8_h2]
  dsimp only
  rw [x64Xor_val, mixK2_val, x64Xor_val]


theorem tailCase10_h1 (key : List Nat) (i : Nat) (s : MState)
    (hkey : ∀ b ∈ key, b < 256) :
    val (tailCase10 key i s).h1
      = val s.h1 ^^^ MurmurSpec.mixK1 (val s.k1 ^^^ (key.getD (i + 7) 0 * 2 ^ 56 + (key.getD (i + 6) 0 * 2 ^ 48 + (key.getD (i + 5) 0 * 2 ^ 40 + (key.getD (i + 4) 0 * 2 ^ 32 + (key.getD (i + 3) 0 * 2 ^ 24 + (key.getD (i + 2) 0 * 2 ^ 16 + (key.getD (i + 1) 0 * 2 ^ 8 + (key.getD i 0))))))))) := by
  simp only [tailCase10]
  rw [tailCase9_h1 key i _ hkey]

theorem tailCase10_h2 (key : List Nat) (i : Nat) (s : MState)
    (hkey : ∀ b ∈ key, b < 256) :
    val (tailCase10 key i s).h2
      = val s.h2 ^^^ MurmurSpec.mixK2 (val s.k2 ^^^ (key.getD (i + 9) 0 * 2 ^ 8 + (key.getD (i + 8) 0))) := by
  simp only [tailCase10]
  rw [x64LeftShift_small _ _ 8 (getD_lt_256 key hkey (i + 9)) (by omega) (by omega)]
  rw [tailCase9_h2 key i]
  dsimp only
  rw [val_zero_lo _ (by have := getD_lt_256 key hkey (i + 8); omega)]
  rw [x64Xor_val, val_zero_lo _ (by have := getD_lt_256 key hkey (i + 9); omega)]
  rw [Nat.xor_assoc, mulPow_xor_eq_add _ (show key.getD (i + 8) 0 < 2 ^ 8 from by
    have := getD_lt_256 key hkey (i + 8)
    omega)]


theorem tailCase11_h1 (key : List Nat) (i : Nat) (s : MState)
    (hkey : ∀ b ∈ key, b < 256) :
    val (tailCase11 key i s).h1
      = val s.h1 ^^^ MurmurSpec.mixK1 (val s.k1 ^^^ (key.getD (i + 7) 0 * 2 ^ 56 + (key.getD (i + 6) 0 * 2 ^ 48 + (key.getD (i + 5) 0 * 2 ^ 40 + (key.getD (i + 4) 0 * 2 ^ 32 + (key.getD (i + 3) 0 * 2 ^ 24 + (key.getD (i + 2) 0 * 2 ^ 16 + (key.getD (i + 1) 0 * 2 ^ 8 + (key.getD i 0))))))))) := by
  simp only [tailCase11]
  rw [tailCase10_h1 key i _ hkey]

theorem tailCase11_h2 (key : List Nat) (i : Nat) (s : MState)
    (hkey : ∀ b ∈ key, b < 256) :
    val (tailCase11 key i s).h2
      = val s.h2 ^^^ MurmurSpec.mixK2 (val s.k2 ^^^ (key.getD (i + 10) 0 * 2 ^ 16 + (key.getD (i + 9) 0 * 2 ^ 8 + (key.getD (i + 8) 0)))) := by
  simp only [tailCase11]
  rw [x64LeftShift_small _ _ 16 (getD_lt_256 key hkey (i + 10)) (by omega) (by omega)]
  rw [tailCase10_h2 key i _ hkey]
  dsimp only
  rw [x64Xor_val, val_zero_lo _ (by have := getD_lt_256 key hkey (i + 10); omega)]
  rw [Nat.xor_assoc, mulPow_xor_eq_add _ (show (key.getD (i + 9) 0 * 2 ^ 8 + (key.getD (i + 8) 0)) < 2 ^ 16 from by
    have hb0 := getD_lt_256 key hkey (i + 8)
    have hb1 := getD_lt_256 key hkey (i + 9)
    omega)]


theorem tailCase12_h1 (key : List Nat) (i : Nat) (s : MState)
    (hkey : ∀ b ∈ key, b < 256) :
    val (tailCase12 key i s).h1
      = val s.h1 ^^^ MurmurSpec.mixK1 (val s.k1 ^^^ (key.getD (i + 7) 0 * 2 ^ 56 + (key.getD (i + 6) 0 * 2 ^ 48 + (key.getD (i + 5) 0 * 2 ^ 40 + (key.getD (i + 4) 0 * 2 ^ 32 + (key.getD (i + 3) 0 * 2 ^ 24 + (key.getD (i + 2) 0 * 2 ^ 16 + (key.getD (i + 1) 0 * 2 ^ 8 + (key.getD i 0))))))))) := by
  simp only [tailCase12]
  rw [tailCase11_h1 key i _ hkey]

theorem tailCase12_h2 (key : List Nat) (i : Nat) (s : MState)
    (hkey : ∀ b ∈ key, b < 256) :
    val (tailCase12 key i s).h2
      = val s.h2 ^^^ MurmurSpec.mixK2 (val s.k2 ^^^ (key.getD (i + 11) 0 * 2 ^ 24 + (key.getD (i + 10) 0 * 2 ^ 16 + (key.getD (i + 9) 0 * 2 ^ 8 + (key.getD (i + 8) 0))))) := by
  simp only [tailCase12]
  rw [x64LeftShift_small _ _ 24 (getD_lt_256 key hkey (i + 11)) (by omega) (by omega)]
  rw [tailCase11_h2 key i _ hkey]
  dsimp only
  rw [x64Xor_val, val_zero_lo _ (by have := getD_lt_256 key hkey (i + 11); omega)]
  rw [Nat.xor_assoc, mulPow_xor_eq_add _ (show (key.getD (i + 10) 0 * 2 ^ 16 + (key.getD (i + 9) 0 * 2 ^ 8 + (key.getD (i + 8) 0))) < 2 ^ 24 from by
    have hb0 := getD_lt_256 key hkey (i + 8)
    have hb1 := getD_lt_256 key hkey (i + 9)
    have hb2 := getD_lt_256 key hkey (i + 10)
    omega)]


theorem tailCase13_h1 (key : List Nat) (i : Nat) (s : MState)
    (hkey : ∀ b ∈ key, b < 256) :
    val (tailCase13 key i s).h1
      = val s.h1 ^^^ MurmurSpec.mixK1 (val s.k1 ^^^ (key.getD (i + 7) 0 * 2 ^ 56 + (key.getD (i + 6) 0 * 2 ^ 48 + (key.getD (i + 5) 0 * 2 ^ 40 + (key.getD (i + 4) 0 * 2 ^ 32 + (key.getD (i + 3) 0 * 2 ^ 24 + (key.getD (i + 2) 0 * 2 ^ 16 + (key.getD (i + 1) 0 * 2 ^ 8 + (key.getD i 0))))))))) := by
  simp only [tailCase13]
  rw [tailCase12_h1 key i _ hkey]

theorem tailCase13_h2 (key : List Nat) (i : Nat) (s : MState)
    (hkey : ∀ b ∈ key, b < 256) :
    val (tailCase13 key i s).h2
      = val s.h2 ^^^ MurmurSpec.mixK2 (val s.k2 ^^^ (key.getD (i + 12) 0 * 2 ^ 32 + (key.getD (i + 11) 0 * 2 ^ 24 + (key.getD (i + 10) 0 * 2 ^ 16 + (key.getD (i + 9) 0 * 2 ^ 8 + (key.getD (i + 8) 0)))))) := by
  simp only [tailCase13]
  rw [x64LeftShift_big_exp _ _ 32 0 (getD_lt_256 key hkey (i + 12)) (by omega) (by omega)]
  rw [tailCase12_h2 key i _ hkey]
  dsimp only
  rw [x64Xor_val, val_hi_zero _ (by have := getD_lt_256 key hkey (i + 12); omega),
    show key.getD (i + 12) 0 * 2 ^ 0 * 4294967296 = key.getD (i + 12) 0 * 2 ^ 32 from by ring]
  rw [Nat.xor_assoc, mulPow_xor_eq_add _ (show (key.getD (i + 11) 0 * 2 ^ 24 + (key.getD (i + 10) 0 * 2 ^ 16 + (key.getD (i + 9) 0 * 2 ^ 8 + (key.getD (i + 8) 0)))) < 2 ^ 32 from by
    have hb0 := getD_lt_256 key hkey (i + 8)
    have hb1 := getD_lt_256 key hkey (i + 9)
    have hb2 := getD_lt_256 key hkey (i + 10)
    have hb3 := getD_lt_256 key hkey (i + 11)
    omega)]


theorem tailCase14_h1 (key : List Nat) (i : Nat) (s : MState)
    (hkey : ∀ b ∈ key, b < 256) :
    val (tailCase14 key i s).h1
      = val s.h1 ^^^ MurmurSpec.mixK1 (val s.k1 ^^^ (key.getD (i + 7) 0 * 2 ^ 56 + (key.getD (i + 6) 0 * 2 ^ 48 + (key.getD (i + 5) 0 * 2 ^ 40 + (key.getD (i + 4) 0 * 2 ^ 32 + (key.getD (i + 3) 0 * 2 ^ 24 + (key.getD (i + 2) 0 * 2 ^ 16 + (key.getD (i + 1) 0 * 2 ^ 8 + (key.getD i 0))))))))) := by
  simp only [tailCase14]
  rw [tailCase13_h1 key i _ hkey]

theorem tailCase14_h2 (key : List Nat) (i : Nat) (s : MState)
    (hkey : ∀ b ∈ key, b < 256) :
    val (tailCase14 key i s).h2
      = val s.h2 ^^^ MurmurSpec.mixK2 (val s.k2 ^^^ (key.getD (i + 13) 0 * 2 ^ 40 + (key.getD (i + 12) 0 * 2 ^ 32 + (key.getD (i + 11) 0 * 2 ^ 24 + (key.getD (i + 10) 0 * 2 ^ 16 + (key.getD (i + 9) 0 * 2 ^ 8 + (key.getD (i + 8) 0))))))) := by
  simp only [tailCase14]
  rw [x64LeftShift_big_exp _ _ 40 8 (getD_lt_256 key hkey (i + 13)) (by omega) (by omega)]
  rw [tailCase13_h2 key i _ hkey]
  dsimp only
  rw [x64Xor_val, val_hi_zero _ (by have := getD_lt_256 key hkey (i + 13); omega),
    show key.getD (i + 13) 0 * 2 ^ 8 * 4294967296 = key.getD (i + 13) 0 * 2 ^ 40 from by ring]
  rw [Nat.xor_assoc, mulPow_xor_eq_add _ (show (key.getD (i + 12) 0 * 2 ^ 32 + (key.getD (i + 11) 0 * 2 ^ 24 + (key.getD (i + 10) 0 * 2 ^ 16 + (key.getD (i + 9) 0 * 2 ^ 8 + (key.getD (i + 8) 0))))) < 2 ^ 40 from by
    have hb0 := getD_lt_256 key hkey (i + 8)
    have hb1 := getD_lt_256 key hkey (i + 9)
    have hb2 := getD_lt_256 key hkey (i + 10)
    have hb3 := getD_lt_256 key hkey (i + 11)
    have hb4 := getD_lt_256 key hkey (i + 12)
    omega)]


theorem tailCase15_h1 (key : List Nat) (i : Nat) (s : MState)
    (hkey : ∀ b ∈ key, b < 256) :
    val (tailCase15 key i s).h1
      = val s.h1 ^^^ MurmurSpec.mixK1 (val s.k1 ^^^ (key.getD (i + 7) 0 * 2 ^ 56 + (key.getD (i + 6) 0 * 2 ^ 48 + (key.getD (i + 5) 0 * 2 ^ 40 + (key.getD (i + 4) 0 * 2 ^ 32 + (key.getD (i + 3) 0 * 2 ^ 24 + (key.getD (i + 2) 0 * 2 ^ 16 + (key.getD (i + 1) 0 * 2 ^ 8 + (key.getD i 0))))))))) := by
  simp only [tailCase15]
  rw [tailCase14_h1 key i _ hkey]

theorem tailCase15_h2 (key : List Nat) (i : Nat) (s : MState)
    (hkey : ∀ b ∈ key, b < 256) :
    val (tailCase15 key i s).h2
      = val s.h2 ^^^ MurmurSpec.mixK2 (val s.k2 ^^^ (key.getD (i + 14) 0 * 2 ^ 48 + (key.getD (i + 13) 0 * 2 ^ 40 + (key.getD (i + 12) 0 * 2 ^ 32 + (key.getD (i + 11) 0 * 2 ^ 24 + (key.getD (i + 10) 0 * 2 ^ 16 + (key.getD (i + 9) 0 * 2 ^ 8 + (key.getD (i + 8) 0)))))))) := by
  simp only [tailCase15]
  rw [x64LeftShift_big_exp _ _ 48 16 (getD_lt_256 key hkey (i + 14)) (by omega) (by omega)]
  rw [tailCase14_h2 key i _ hkey]
  dsimp only
  rw [x64Xor_val, val_hi_zero _ (by have := getD_lt_256 key hkey (i + 14); omega),
    show key.getD (i + 14) 0 * 2 ^ 16 * 4294967296 = key.getD (i + 14) 0 * 2 ^ 48 from by ring]
  rw [Nat.xor_assoc, mulPow_xor_eq_add _ (show (key.getD (i + 13) 0 * 2 ^ 40 + (key.getD (i + 12) 0 * 2 ^ 32 + (key.getD (i + 11) 0 * 2 ^ 24 + (key.getD (i + 10) 0 * 2 ^ 16 + (key.getD (i + 9) 0 * 2 ^ 8 + (key.getD (i + 8) 0)))))) < 2 ^ 48 from by
    have hb0 := getD_lt_256 key hkey (i + 8)
    have hb1 := getD_lt_256 key hkey (i + 9)
    have hb2 := getD_lt_256 key hkey (i + 10)
    have hb3 := getD_lt_256 key hkey (i + 11)
    have hb4 := getD_lt_256 key hkey (i + 12)
    have hb5 := getD_lt_256 key hkey (i + 13)
    omega)]

theorem getD_drop0 (key : List Nat) (i j : Nat) : (key.drop i).getD j 0 = key.getD (i + j) 0 := by
  simp [List.getD_eq_getElem?_getD, List.getElem?_drop]

theorem le64_take8 (bs : List Nat) :
    MurmurSpec.le64 (bs.take 8) = bs.getD 0 0 + bs.getD 1 0 * 2 ^ 8 + bs.getD 2 0 * 2 ^ 16
      + bs.getD 3 0 * 2 ^ 24 + bs.getD 4 0 * 2 ^ 32 + bs.getD 5 0 * 2 ^ 40
      + bs.getD 6 0 * 2 ^ 48 + bs.getD 7 0 * 2 ^ 56 := by
  rcases bs with _ | ⟨b0, _ | ⟨b1, _ | ⟨b2, _ | ⟨b3, _ | ⟨b4, _ | ⟨b5, _ | ⟨b6, _ | ⟨b7, rest⟩⟩⟩⟩⟩⟩⟩⟩ <;>
    simp [MurmurSpec.le64] <;> ring

theorem le64_getD8 (bs : List Nat) (h : bs.length ≤ 8) :
    MurmurSpec.le64 bs = bs.getD 0 0 + bs.getD 1 0 * 2 ^ 8 + bs.getD 2 0 * 2 ^ 16
      + bs.getD 3 0 * 2 ^ 24 + bs.getD 4 0 * 2 ^ 32 + bs.getD 5 0 * 2 ^ 40
      + bs.getD 6 0 * 2 ^ 48 + bs.getD 7 0 * 2 ^ 56 := by
  conv_lhs => rw [← List.take_of_length_le h]
  exact le64_take8 bs

theorem val_00 : val (0, 0) = 0 := rfl

theorem tailSwitch_spec (key : List Nat) (hkey : ∀ b ∈ key, b < 256) (i : Nat)
    (h1 h2 : Nat × Nat) (hle : i ≤ key.length) (hlt : key.length - i < 16) :
    (val (tailSwitch key i (key.length - i) ⟨(0, 0), (0, 0), (0, 0), h1, h2⟩).h1,
     val (tailSwitch key i (key.length - i) ⟨(0, 0), (0, 0), (0, 0), h1, h2⟩).h2)
      = MurmurSpec.body (val h1) (val h2) (key.drop i) := by
  rw [MurmurSpec.body, dif_neg (by rw [List.length_drop]; omega)]
  simp only [List.length_drop]
  rw [Prod.mk.injEq]
  obtain ⟨r, hr, hrlt⟩ : ∃ r, key.length - i = r ∧ r < 16 := ⟨_, rfl, hlt⟩
  rw [hr]
  interval_cases r
  · simp [tailSwitch]
  · simp only [tailSwitch]
    refine ⟨?_, ?_⟩
    · rw [tailCase1_h1 key i]
      dsimp only
      rw [val_00, Nat.zero_xor, val_zero_lo _ (by have := getD_lt_256 key hkey i; omega),
        if_pos (by norm_num)]
      rw [le64_take8 (key.drop i)]
      simp only [getD_drop0, Nat.add_zero]
      have hz1 : key.getD (i + 1) 0 = 0 := List.getD_eq_default _ _ (by omega)
      have hz2 : key.getD (i + 2) 0 = 0 := List.getD_eq_default _ _ (by omega)
      have hz3 : key.getD (i + 3) 0 = 0 := List.getD_eq_default _ _ (by omega)
      have hz4 : key.getD (i + 4) 0 = 0 := List.getD_eq_default _ _ (by omega)
      have hz5 : key.getD (i + 5) 0 = 0 := List.getD_eq_default _ _ (by omega)
      have hz6 : key.getD (i + 6) 0 = 0 := List.getD_eq_default _ _ (by omega)
      have hz7 : key.getD (i + 7) 0 = 0 := List.getD_eq_default _ _ (by omega)
      have harg : (key.getD i 0) = key.getD i 0 + key.getD (i + 1) 0 * 2 ^ 8 + key.getD (i + 2) 0 * 2 ^ 16 + key.getD (i + 3) 0 * 2 ^ 24 + key.getD (i + 4) 0 * 2 ^ 32 + key.getD (i + 5) 0 * 2 ^ 40 + key.getD (i + 6) 0 * 2 ^ 48 + key.getD (i + 7) 0 * 2 ^ 56 := by omega
      exact congrArg (fun z => val h1 ^^^ MurmurSpec.mixK1 z) harg
    · rw [tailCase1_h2]
      dsimp only
      rw [if_neg (by norm_num)]
  · simp only [tailSwitch]
    refine ⟨?_, ?_⟩
    · rw [tailCase2_h1 key i _ hkey]
      dsimp only
      rw [val_00, Nat.zero_xor, if_pos (by norm_num)]
      rw [le64_take8 (key.drop i)]
      simp only [getD_drop0, Nat.add_zero]
      have hz2 : key.getD (i + 2) 0 = 0 := List.getD_eq_default _ _ (by omega)
      have hz3 : key.getD (i + 3) 0 = 0 := List.getD_eq_default _ _ (by omega)
      have hz4 : key.getD (i + 4) 0 = 0 := List.getD_eq_default _ _ (by omega)
      have hz5 : key.getD (i + 5) 0 = 0 := List.getD_eq_default _ _ (by omega)
      have hz6 : key.getD (i + 6) 0 = 0 := List.getD_eq_default _ _ (by omega)
      have hz7 : key.getD (i + 7) 0 = 0 := List.getD_eq_default _ _ (by omega)
      have harg : (key.getD (i + 1) 0 * 2 ^ 8 + (key.getD i 0)) = key.getD i 0 + key.getD (i + 1) 0 * 2 ^ 8 + key.getD (i + 2) 0 * 2 ^ 16 + key.getD (i + 3) 0 * 2 ^ 24 + key.getD (i + 4) 0 * 2 ^ 32 + key.getD (i + 5) 0 * 2 ^ 40 + key.getD (i + 6) 0 * 2 ^ 48 + key.getD (i + 7) 0 * 2 ^ 56 := by omega
      exact congrArg (fun z => val h1 ^^^ MurmurSpec.mixK1 z) harg
    · rw [tailCase2_h2]
      dsimp only
      rw [if_neg (by norm_num)]
  · simp only [tailSwitch]
    refine ⟨?_, ?_⟩
    · rw [tailCase3_h1 key i _ hkey]
      dsimp only
      rw [val_00, Nat.zero_xor, if_pos (by norm_num)]
      rw [le64_take8 (key.drop i)]
      simp only [getD_drop0, Nat.add_zero]
      have hz3 : key.getD (i + 3) 0 = 0 := List.getD_eq_default _ _ (by omega)
      have hz4 : key.getD (i + 4) 0 = 0 := List.getD_eq_default _ _ (by omega)
      have hz5 : key.getD (i + 5) 0 = 0 := List.getD_eq_default _ _ (by omega)
      have hz6 : key.getD (i + 6) 0 = 0 := List.getD_eq_default _ _ (by omega)
      have hz7 : key.getD (i + 7) 0 = 0 := List.getD_eq_default _ _ (by omega)
      have harg : (key.getD (i + 2) 0 * 2 ^ 16 + (key.getD (i + 1) 0 * 2 ^ 8 + (key.getD i 0))) = key.getD i 0 + key.getD (i + 1) 0 * 2 ^ 8 + key.getD (i + 2) 0 * 2 ^ 16 + key.getD (i + 3) 0 * 2 ^ 24 + key.getD (i + 4) 0 * 2 ^ 32 + key.getD (i + 5) 0 * 2 ^ 40 + key.getD (i + 6) 0 * 2 ^ 48 + key.getD (i + 7) 0 * 2 ^ 56 := by omega
      exact congrArg (fun z => val h1 ^^^ MurmurSpec.mixK1 z) harg
    · rw [tailCase3_h2]
      dsimp only
      rw [if_neg (by norm_num)]
  · simp only [tailSwitch]
    refine ⟨?_, ?_⟩
    · rw [tailCase4_h1 key i _ hkey]
      dsimp only
      rw [val_00, Nat.zero_xor, if_pos (by norm_num)]
      rw [le64_take8 (key.drop i)]
      simp only [getD_drop0, Nat.add_zero]
      have hz4 : key.getD (i + 4) 0 = 0 := List.getD_eq_default _ _ (by omega)
      have hz5 : key.getD (i + 5) 0 = 0 := List.getD_eq_default _ _ (by omega)
      have hz6 : key.getD (i + 6) 0 = 0 := List.getD_eq_default _ _ (by omega)
      have hz7 : key.getD (i + 7) 0 = 0 := List.getD_eq_default _ _ (by omega)
      have harg : (key.getD (i + 3) 0 * 2 ^ 24 + (key.getD (i + 2) 0 * 2 ^ 16 + (key.getD (i + 1) 0 * 2 ^ 8 + (key.getD i 0)))) = key.getD i 0 + key.getD (i + 1) 0 * 2 ^ 8 + key.getD (i + 2) 0 * 2 ^ 16 + key.getD (i + 3) 0 * 2 ^ 24 + key.getD (i + 4) 0 * 2 ^ 32 + key.getD (i + 5) 0 * 2 ^ 40 + key.getD (i + 6) 0 * 2 ^ 48 + key.getD (i + 7) 0 * 2 ^ 56 := by omega
      exact congrArg (fun z => val h1 ^^^ MurmurSpec.mixK1 z) harg
    · rw [tailCase4_h2]
      dsimp only
      rw [if_neg (by norm_num)]
  · simp only [tailSwitch]
    refine ⟨?_, ?_⟩
    · rw [tailCase5_h1 key i _ hkey]
      dsimp only
      rw [val_00, Nat.zero_xor, if_pos (by norm_num)]
      rw [le64_take8 (key.drop i)]
      simp only [getD_drop0, Nat.add_zero]
      have hz5 : key.getD (i + 5) 0 = 0 := List.getD_eq_default _ _ (by omega)
      have hz6 : key.getD (i + 6) 0 = 0 := List.getD_eq_default _ _ (by omega)
      have hz7 : key.getD (i + 7) 0 = 0 := List.getD_eq_default _ _ (by omega)
      have harg : (key.getD (i + 4) 0 * 2 ^ 32 + (key.getD (i + 3) 0 * 2 ^ 24 + (key.getD (i + 2) 0 * 2 ^ 16 + (key.getD (i + 1) 0 * 2 ^ 8 + (key.getD i 0))))) = key.getD i 0 + key.getD (i + 1) 0 * 2 ^ 8 + key.getD (i + 2) 0 * 2 ^ 16 + key.getD (i + 3) 0 * 2 ^ 24 + key.getD (i + 4) 0 * 2 ^ 32 + key.getD (i + 5) 0 * 2 ^ 40 + key.getD (i + 6) 0 * 2 ^ 48 + key.getD (i + 7) 0 * 2 ^ 56 := by omega
      exact congrArg (fun z => val h1 ^^^ MurmurSpec.mixK1 z) harg
    · rw [tailCase5_h2]
      dsimp only
      rw [if_neg (by norm_num)]
  · simp only [tailSwitch]
    refine ⟨?_, ?_⟩
    · rw [tailCase6_h1 key i _ hkey]
      dsimp only
      rw [val_00, Nat.zero_xor, if_pos (by norm_num)]
      rw [le64_take8 (key.drop i)]
      simp only [getD_drop0, Nat.add_zero]
      have hz6 : key.getD (i + 6) 0 = 0 := List.getD_eq_default _ _ (by omega)
      have hz7 : key.getD (i + 7) 0 = 0 := List.getD_eq_default _ _ (by omega)
      have harg : (key.getD (i + 5) 0 * 2 ^ 40 + (key.getD (i + 4) 0 * 2 ^ 32 + (key.getD (i + 3) 0 * 2 ^ 24 + (key.getD (i + 2) 0 * 2 ^ 16 + (key.getD (i + 1) 0 * 2 ^ 8 + (key.getD i 0)))))) = key.getD i 0 + key.getD (i + 1) 0 * 2 ^ 8 + key.getD (i + 2) 0 * 2 ^ 16 + key.getD (i + 3) 0 * 2 ^ 24 + key.getD (i + 4) 0 * 2 ^ 32 + key.getD (i + 5) 0 * 2 ^ 40 + key.getD (i + 6) 0 * 2 ^ 48 + key.getD (i + 7) 0 * 2 ^ 56 := by omega
      exact congrArg (fun z => val h1 ^^^ MurmurSpec.mixK1 z) harg
    · rw [tailCase6_h2]
      dsimp only
      rw [if_neg (by norm_num)]
  · simp only [tailSwitch]
    refine ⟨?_, ?_⟩
    · rw [tailCase7_h1 key i _ hkey]
      dsimp only
      rw [val_00, Nat.zero_xor, if_pos (by norm_num)]
      rw [le64_take8 (key.drop i)]
      simp only [getD_drop0, Nat.add_zero]
      have hz7 : key.getD (i + 7) 0 = 0 := List.getD_eq_default _ _ (by omega)
      have harg : (key.getD (i + 6) 0 * 2 ^ 48 + (key.getD (i + 5) 0 * 2 ^ 40 + (key.getD (i + 4) 0 * 2 ^ 32 + (key.getD (i + 3) 0 * 2 ^ 24 + (key.getD (i + 2) 0 * 2 ^ 16 + (key.getD (i + 1) 0 * 2 ^ 8 + (key.getD i 0))))))) = key.getD i 0 + key.getD (i + 1) 0 * 2 ^ 8 + key.getD (i + 2) 0 * 2 ^ 16 + key.getD (i + 3) 0 * 2 ^ 24 + key.getD (i + 4) 0 * 2 ^ 32 + key.getD (i + 5) 0 * 2 ^ 40 + key.getD (i + 6) 0 * 2 ^ 48 + key.getD (i + 7) 0 * 2 ^ 56 := by omega
      exact congrArg (fun z => val h1 ^^^ MurmurSpec.mixK1 z) harg
    · rw [tailCase7_h2]
      dsimp only
      rw [if_neg (by norm_num)]
  · simp only [tailSwitch]
    refine ⟨?_, ?_⟩
    · rw [tailCase8_h1 key i _ hkey]
      dsimp only
      rw [val_00, Nat.zero_xor, if_pos (by norm_num)]
      rw [le64_take8 (key.drop i)]
      simp only [getD_drop0, Nat.add_zero]
      have harg : (key.getD (i + 7) 0 * 2 ^ 56 + (key.getD (i + 6) 0 * 2 ^ 48 + (key.getD (i + 5) 0 * 2 ^ 40 + (key.getD (i + 4) 0 * 2 ^ 32 + (key.getD (i + 3) 0 * 2 ^ 24 + (key.getD (i + 2) 0 * 2 ^ 16 + (key.getD (i + 1) 0 * 2 ^ 8 + (key.getD i 0)))))))) = key.getD i 0 + key.getD (i + 1) 0 * 2 ^ 8 + key.getD (i + 2) 0 * 2 ^ 16 + key.getD (i + 3) 0 * 2 ^ 24 + key.getD (i + 4) 0 * 2 ^ 32 + key.getD (i + 5) 0 * 2 ^ 40 + key.getD (i + 6) 0 * 2 ^ 48 + key.getD (i + 7) 0 * 2 ^ 56 := by omega
      exact congrArg (fun z => val h1 ^^^ MurmurSpec.mixK1 z) harg
    · rw [tailCase8_h2]
      dsimp only
      rw [if_neg (by norm_num)]
  · simp only [tailSwitch]
    refine ⟨?_, ?_⟩
    · rw [tailCase9_h1 key i _ hkey]
      dsimp only
      rw [val_00, Nat.zero_xor, if_pos (by norm_num)]
      rw [le64_take8 (key.drop i)]
      simp only [getD_drop0, Nat.add_zero]
      have harg : (key.getD (i + 7) 0 * 2 ^ 56 + (key.getD (i + 6) 0 * 2 ^ 48 + (key.getD (i + 5) 0 * 2 ^ 40 + (key.getD (i + 4) 0 * 2 ^ 32 + (key.getD (i + 3) 0 * 2 ^ 24 + (key.getD (i + 2) 0 * 2 ^ 16 + (key.getD (i + 1) 0 * 2 ^ 8 + (key.getD i 0)))))))) = key.getD i 0 + key.getD (i + 1) 0 * 2 ^ 8 + key.getD (i + 2) 0 * 2 ^ 16 + key.getD (i + 3) 0 * 2 ^ 24 + key.getD (i + 4) 0 * 2 ^ 32 + key.getD (i + 5) 0 * 2 ^ 40 + key.getD (i + 6) 0 * 2 ^ 48 + key.getD (i + 7) 0 * 2 ^ 56 := by omega
      exact congrArg (fun z => val h1 ^^^ MurmurSpec.mixK1 z) harg
    · rw [tailCase9_h2 key i]
      dsimp only
      rw [val_00, Nat.zero_xor, val_zero_lo _ (by have := getD_lt_256 key hkey (i + 8); omega),
        if_pos (by norm_num)]
      rw [le64_getD8 ((key.drop i).drop 8) (by simp only [List.length_drop]; omega)]
      simp only [getD_drop0, Nat.reduceAdd, Nat.add_zero]
      have hz9 : key.getD (i + 9) 0 = 0 := List.getD_eq_default _ _ (by omega)
      have hz10 : key.getD (i + 10) 0 = 0 := List.getD_eq_default _ _ (by omega)
      have hz11 : key.getD (i + 11) 0 = 0 := List.getD_eq_default _ _ (by omega)
      have hz12 : key.getD (i + 12) 0 = 0 := List.getD_eq_default _ _ (by omega)
      have hz13 : key.getD (i + 13) 0 = 0 := List.getD_eq_default _ _ (by omega)
      have hz14 : key.getD (i + 14) 0 = 0 := List.getD_eq_default _ _ (by omega)
      have hz15 : key.getD (i + 15) 0 = 0 := List.getD_eq_default _ _ (by omega)
      have harg : (key.getD (i + 8) 0) = key.getD (i + 8) 0 + key.getD (i + 9) 0 * 2 ^ 8 + key.getD (i + 10) 0 * 2 ^ 16 + key.getD (i + 11) 0 * 2 ^ 24 + key.getD (i + 12) 0 * 2 ^ 32 + key.getD (i + 13) 0 * 2 ^ 40 + key.getD (i + 14) 0 * 2 ^ 48 + key.getD (i + 15) 0 * 2 ^ 56 := by omega
      exact congrArg (fun z => val h2 ^^^ MurmurSpec.mixK2 z) harg
  · simp only [tailSwitch]
    refine ⟨?_, ?_⟩
    · rw [tailCase10_h1 key i _ hkey]
      dsimp only
      rw [val_00, Nat.zero_xor, if_pos (by norm_num)]
      rw [le64_take8 (key.drop i)]
      simp only [getD_drop0, Nat.add_zero]
      have harg : (key.getD (i + 7) 0 * 2 ^ 56 + (key.getD (i + 6) 0 * 2 ^ 48 + (key.getD (i + 5) 0 * 2 ^ 40 + (key.getD (i + 4) 0 * 2 ^ 32 + (key.getD (i + 3) 0 * 2 ^ 24 + (key.getD (i + 2) 0 * 2 ^ 16 + (key.getD (i + 1) 0 * 2 ^ 8 + (key.getD i 0)))))))) = key.getD i 0 + key.getD (i + 1) 0 * 2 ^ 8 + key.getD (i + 2) 0 * 2 ^ 16 + key.getD (i + 3) 0 * 2 ^ 24 + key.getD (i + 4) 0 * 2 ^ 32 + key.getD (i + 5) 0 * 2 ^ 40 + key.getD (i + 6) 0 * 2 ^ 48 + key.getD (i + 7) 0 * 2 ^ 56 := by omega
      exact congrArg (fun z => val h1 ^^^ MurmurSpec.mixK1 z) harg
    · rw [tailCase10_h2 key i _ hkey]
      dsimp only
      rw [val_00, Nat.zero_xor, if_pos (by norm_num)]
      rw [le64_getD8 ((key.drop i).drop 8) (by simp only [List.length_drop]; omega)]
      simp only [getD_drop0, Nat.reduceAdd, Nat.add_zero]
      have hz10 : key.getD (i + 10) 0 = 0 := List.getD_eq_default _ _ (by omega)
      have hz11 : key.getD (i + 11) 0 = 0 := List.getD_eq_default _ _ (by omega)
      have hz12 : key.getD (i + 12) 0 = 0 := List.getD_eq_default _ _ (by omega)
      have hz13 : key.getD (i + 13) 0 = 0 := List.getD_eq_default _ _ (by omega)
      have hz14 : key.getD (i + 14) 0 = 0 := List.getD_eq_default _ _ (by omega)
      have hz15 : key.getD (i + 15) 0 = 0 := List.getD_eq_default _ _ (by omega)
      have harg : (key.getD (i + 9) 0 * 2 ^ 8 + (key.getD (i + 8) 0)) = key.getD (i + 8) 0 + key.getD (i + 9) 0 * 2 ^ 8 + key.getD (i + 10) 0 * 2 ^ 16 + key.getD (i + 11) 0 * 2 ^ 24 + key.getD (i + 12) 0 * 2 ^ 32 + key.getD (i + 13) 0 * 2 ^ 40 + key.getD (i + 14) 0 * 2 ^ 48 + key.getD (i + 15) 0 * 2 ^ 56 := by omega
      exact congrArg (fun z => val h2 ^^^ MurmurSpec.mixK2 z) harg
  · simp only [tailSwitch]
    refine ⟨?_, ?_⟩
    · rw [tailCase11_h1 key i _ hkey]
      dsimp only
      rw [val_00, Nat.zero_xor, if_pos (by norm_num)]
      rw [le64_take8 (key.drop i)]
      simp only [getD_drop0, Nat.add_zero]
      have harg : (key.getD (i + 7) 0 * 2 ^ 56 + (key.getD (i + 6) 0 * 2 ^ 48 + (key.getD (i + 5) 0 * 2 ^ 40 + (key.getD (i + 4) 0 * 2 ^ 32 + (key.getD (i + 3) 0 * 2 ^ 24 + (key.getD (i + 2) 0 * 2 ^ 16 + (key.getD (i + 1) 0 * 2 ^ 8 + (key.getD i 0)))))))) = key.getD i 0 + key.getD (i + 1) 0 * 2 ^ 8 + key.getD (i + 2) 0 * 2 ^ 16 + key.getD (i + 3) 0 * 2 ^ 24 + key.getD (i + 4) 0 * 2 ^ 32 + key.getD (i + 5) 0 * 2 ^ 40 + key.getD (i + 6) 0 * 2 ^ 48 + key.getD (i + 7) 0 * 2 ^ 56 := by omega
      exact congrArg (fun z => val h1 ^^^ MurmurSpec.mixK1 z) harg
    · rw [tailCase11_h2 key i _ hkey]
      dsimp only
      rw [val_00, Nat.zero_xor, if_pos (by norm_num)]
      rw [le64_getD8 ((key.drop i).drop 8) (by simp only [List.length_drop]; omega)]
      simp only [getD_drop0, Nat.reduceAdd, Nat.add_zero]
      have hz11 : key.getD (i + 11) 0 = 0 := List.getD_eq_default _ _ (by omega)
      have hz12 : key.getD (i + 12) 0 = 0 := List.getD_eq_default _ _ (by omega)
      have hz13 : key.getD (i + 13) 0 = 0 := List.getD_eq_default _ _ (by omega)
      have hz14 : key.getD (i + 14) 0 = 0 := List.getD_eq_default _ _ (by omega)
      have hz15 : key.getD (i + 15) 0 = 0 := List.getD_eq_default _ _ (by omega)
      have harg : (key.getD (i + 10) 0 * 2 ^ 16 + (key.getD (i + 9) 0 * 2 ^ 8 + (key.getD (i + 8) 0))) = key.getD (i + 8) 0 + key.getD (i + 9) 0 * 2 ^ 8 + key.getD (i + 10) 0 * 2 ^ 16 + key.getD (i + 11) 0 * 2 ^ 24 + key.getD (i + 12) 0 * 2 ^ 32 + key.getD (i + 13) 0 * 2 ^ 40 + key.getD (i + 14) 0 * 2 ^ 48 + key.getD (i + 15) 0 * 2 ^ 56 := by omega
      exact congrArg (fun z => val h2 ^^^ MurmurSpec.mixK2 z) harg
  · simp only [tailSwitch]
    refine ⟨?_, ?_⟩
    · rw [tailCase12_h1 key i _ hkey]
      dsimp only
      rw [val_00, Nat.zero_xor, if_pos (by norm_num)]
      rw [le64_take8 (key.drop i)]
      simp only [getD_drop0, Nat.add_zero]
      have harg : (key.getD (i + 7) 0 * 2 ^ 56 + (key.getD (i + 6) 0 * 2 ^ 48 + (key.getD (i + 5) 0 * 2 ^ 40 + (key.getD (i + 4) 0 * 2 ^ 32 + (key.getD (i + 3) 0 * 2 ^ 24 + (key.getD (i + 2) 0 * 2 ^ 16 + (key.getD (i + 1) 0 * 2 ^ 8 + (key.getD i 0)))))))) = key.getD i 0 + key.getD (i + 1) 0 * 2 ^ 8 + key.getD (i + 2) 0 * 2 ^ 16 + key.getD (i + 3) 0 * 2 ^ 24 + key.getD (i + 4) 0 * 2 ^ 32 + key.getD (i + 5) 0 * 2 ^ 40 + key.getD (i + 6) 0 * 2 ^ 48 + key.getD (i + 7) 0 * 2 ^ 56 := by omega
      exact congrArg (fun z => val h1 ^^^ MurmurSpec.mixK1 z) harg
    · rw [tailCase12_h2 key i _ hkey]
      dsimp only
      rw [val_00, Nat.zero_xor, if_pos (by norm_num)]
      rw [le64_getD8 ((key.drop i).drop 8) (by simp only [List.length_drop]; omega)]
      simp only [getD_drop0, Nat.reduceAdd, Nat.add_zero]
      have hz12 : key.getD (i + 12) 0 = 0 := List.getD_eq_default _ _ (by omega)
      have hz13 : key.getD (i + 13) 0 = 0 := List.getD_eq_default _ _ (by omega)
      have hz14 : key.getD (i + 14) 0 = 0 := List.getD_eq_default _ _ (by omega)
      have hz15 : key.getD (i + 15) 0 = 0 := List.getD_eq_default _ _ (by omega)
      have harg : (key.getD (i + 11) 0 * 2 ^ 24 + (key.getD (i + 10) 0 * 2 ^ 16 + (key.getD (i + 9) 0 * 2 ^ 8 + (key.getD (i + 8) 0)))) = key.getD (i + 8) 0 + key.getD (i + 9) 0 * 2 ^ 8 + key.getD (i + 10) 0 * 2 ^ 16 + key.getD (i + 11) 0 * 2 ^ 24 + key.getD (i + 12) 0 * 2 ^ 32 + key.getD (i + 13) 0 * 2 ^ 40 + key.getD (i + 14) 0 * 2 ^ 48 + key.getD (i + 15) 0 * 2 ^ 56 := by omega
      exact congrArg (fun z => val h2 ^^^ MurmurSpec.mixK2 z) harg
  · simp only [tailSwitch]
    refine ⟨?_, ?_⟩
    · rw [tailCase13_h1 key i _ hkey]
      dsimp only
      rw [val_00, Nat.zero_xor, if_pos (by norm_num)]
      rw [le64_take8 (key.drop i)]
      simp only [getD_drop0, Nat.add_zero]
      have harg : (key.getD (i + 7) 0 * 2 ^ 56 + (key.getD (i + 6) 0 * 2 ^ 48 + (key.getD (i + 5) 0 * 2 ^ 40 + (key.getD (i + 4) 0 * 2 ^ 32 + (key.getD (i + 3) 0 * 2 ^ 24 + (key.getD (i + 2) 0 * 2 ^ 16 + (key.getD (i + 1) 0 * 2 ^ 8 + (key.getD i 0)))))))) = key.getD i 0 + key.getD (i + 1) 0 * 2 ^ 8 + key.getD (i + 2) 0 * 2 ^ 16 + key.getD (i + 3) 0 * 2 ^ 24 + key.getD (i + 4) 0 * 2 ^ 32 + key.getD (i + 5) 0 * 2 ^ 40 + key.getD (i + 6) 0 * 2 ^ 48 + key.getD (i + 7) 0 * 2 ^ 56 := by omega
      exact congrArg (fun z => val h1 ^^^ MurmurSpec.mixK1 z) harg
    · rw [tailCase13_h2 key i _ hkey]
      dsimp only
      rw [val_00, Nat.zero_xor, if_pos (by norm_num)]
      rw [le64_getD8 ((key.drop i).drop 8) (by simp only [List.length_drop]; omega)]
      simp only [getD_drop0, Nat.reduceAdd, Nat.add_zero]
      have hz13 : key.getD (i + 13) 0 = 0 := List.getD_eq_default _ _ (by omega)
      have hz14 : key.getD (i + 14) 0 = 0 := List.getD_eq_default _ _ (by omega)
      have hz15 : key.getD (i + 15) 0 = 0 := List.getD_eq_default _ _ (by omega)
      have harg : (key.getD (i + 12) 0 * 2 ^ 32 + (key.getD (i + 11) 0 * 2 ^ 24 + (key.getD (i + 10) 0 * 2 ^ 16 + (key.getD (i + 9) 0 * 2 ^ 8 + (key.getD (i + 8) 0))))) = key.getD (i + 8) 0 + key.getD (i + 9) 0 * 2 ^ 8 + key.getD (i + 10) 0 * 2 ^ 16 + key.getD (i + 11) 0 * 2 ^ 24 + key.getD (i + 12) 0 * 2 ^ 32 + key.getD (i + 13) 0 * 2 ^ 40 + key.getD (i + 14) 0 * 2 ^ 48 + key.getD (i + 15) 0 * 2 ^ 56 := by omega
      exact congrArg (fun z => val h2 ^^^ MurmurSpec.mixK2 z) harg
  · simp only [tailSwitch]
    refine ⟨?_, ?_⟩
    · rw [tailCase14_h1 key i _ hkey]
      dsimp only
      rw [val_00, Nat.zero_xor, if_pos (by norm_num)]
      rw [le64_take8 (key.drop i)]
      simp only [getD_drop0, Nat.add_zero]
      have harg : (key.getD (i + 7) 0 * 2 ^ 56 + (key.getD (i + 6) 0 * 2 ^ 48 + (key.getD (i + 5) 0 * 2 ^ 40 + (key.getD (i + 4) 0 * 2 ^ 32 + (key.getD (i + 3) 0 * 2 ^ 24 + (key.getD (i + 2) 0 * 2 ^ 16 + (key.getD (i + 1) 0 * 2 ^ 8 + (key.getD i 0)))))))) = key.getD i 0 + key.getD (i + 1) 0 * 2 ^ 8 + key.getD (i + 2) 0 * 2 ^ 16 + key.getD (i + 3) 0 * 2 ^ 24 + key.getD (i + 4) 0 * 2 ^ 32 + key.getD (i + 5) 0 * 2 ^ 40 + key.getD (i + 6) 0 * 2 ^ 48 + key.getD (i + 7) 0 * 2 ^ 56 := by omega
      exact congrArg (fun z => val h1 ^^^ MurmurSpec.mixK1 z) harg
    · rw [tailCase14_h2 key i _ hkey]
      dsimp only
      rw [val_00, Nat.zero_xor, if_pos (by norm_num)]
      rw [le64_getD8 ((key.drop i).drop 8) (by simp only [List.length_drop]; omega)]
      simp only [getD_drop0, Nat.reduceAdd, Nat.add_zero]
      have hz14 : key.getD (i + 14) 0 = 0 := List.getD_eq_default _ _ (by omega)
      have hz15 : key.getD (i + 15) 0 = 0 := List.getD_eq_default _ _ (by omega)
      have harg : (key.getD (i + 13) 0 * 2 ^ 40 + (key.getD (i + 12) 0 * 2 ^ 32 + (key.getD (i + 11) 0 * 2 ^ 24 + (key.getD (i + 10) 0 * 2 ^ 16 + (key.getD (i + 9) 0 * 2 ^ 8 + (key.getD (i + 8) 0)))))) = key.getD (i + 8) 0 + key.getD (i + 9) 0 * 2 ^ 8 + key.getD (i + 10) 0 * 2 ^ 16 + key.getD (i + 11) 0 * 2 ^ 24 + key.getD (i + 12) 0 * 2 ^ 32 + key.getD (i + 13) 0 * 2 ^ 40 + key.getD (i + 14) 0 * 2 ^ 48 + key.getD (i + 15) 0 * 2 ^ 56 := by omega
      exact congrArg (fun z => val h2 ^^^ MurmurSpec.mixK2 z) harg
  · simp only [tailSwitch]
    refine ⟨?_, ?_⟩
    · rw [tailCase15_h1 key i _ hkey]
      dsimp only
      rw [val_00, Nat.zero_xor, if_pos (by norm_num)]
      rw [le64_take8 (key.drop i)]
      simp only [getD_drop0, Nat.add_zero]
      have harg : (key.getD (i + 7) 0 * 2 ^ 56 + (key.getD (i + 6) 0 * 2 ^ 48 + (key.getD (i + 5) 0 * 2 ^ 40 + (key.getD (i + 4) 0 * 2 ^ 32 + (key.getD (i + 3) 0 * 2 ^ 24 + (key.getD (i + 2) 0 * 2 ^ 16 + (key.getD (i + 1) 0 * 2 ^ 8 + (key.getD i 0)))))))) = key.getD i 0 + key.getD (i + 1) 0 * 2 ^ 8 + key.getD (i + 2) 0 * 2 ^ 16 + key.getD (i + 3) 0 * 2 ^ 24 + key.getD (i + 4) 0 * 2 ^ 32 + key.getD (i + 5) 0 * 2 ^ 40 + key.getD (i + 6) 0 * 2 ^ 48 + key.getD (i + 7) 0 * 2 ^ 56 := by omega
      exact congrArg (fun z => val h1 ^^^ MurmurSpec.mixK1 z) harg
    · rw [tailCase15_h2 key i _ hkey]
      dsimp only
      rw [val_00, Nat.zero_xor, if_pos (by norm_num)]
      rw [le64_getD8 ((key.drop i).drop 8) (by simp only [List.length_drop]; omega)]
      simp only [getD_drop0, Nat.reduceAdd, Nat.add_zero]
      have hz15 : key.getD (i + 15) 0 = 0 := List.getD_eq_default _ _ (by omega)
      have harg : (key.getD (i + 14) 0 * 2 ^ 48 + (key.getD (i + 13) 0 * 2 ^ 40 + (key.getD (i + 12) 0 * 2 ^ 32 + (key.getD (i + 11) 0 * 2 ^ 24 + (key.getD (i + 10) 0 * 2 ^ 16 + (key.getD (i + 9) 0 * 2 ^ 8 + (key.getD (i + 8) 0))))))) = key.getD (i + 8) 0 + key.getD (i + 9) 0 * 2 ^ 8 + key.getD (i + 10) 0 * 2 ^ 16 + key.getD (i + 11) 0 * 2 ^ 24 + key.getD (i + 12) 0 * 2 ^ 32 + key.getD (i + 13) 0 * 2 ^ 40 + key.getD (i + 14) 0 * 2 ^ 48 + key.getD (i + 15) 0 * 2 ^ 56 := by omega
      exact congrArg (fun z => val h2 ^^^ MurmurSpec.mixK2 z) harg

theorem blockK1_val (key : List Nat) (i : Nat) (hkey : ∀ b ∈ key, b < 256) :
    val (blockK1 key i) = MurmurSpec.le64 ((key.drop i).take 8) := by
  simp only [blockK1]
  rw [read4_val _ _ _ _ (getD_lt_256 key hkey _) (getD_lt_256 key hkey _)
      (getD_lt_256 key hkey _) (getD_lt_256 key hkey _),
    read4_val _ _ _ _ (getD_lt_256 key hkey _) (getD_lt_256 key hkey _)
      (getD_lt_256 key hkey _) (getD_lt_256 key hkey _)]
  rw [le64_take8 (key.drop i)]
  simp only [getD_drop0, Nat.add_zero, val]
  have b0 := getD_lt_256 key hkey i
  have b1 := getD_lt_256 key hkey (i + 1)
  have b2 := getD_lt_256 key hkey (i + 2)
  have b3 := getD_lt_256 key hkey (i + 3)
  have b4 := getD_lt_256 key hkey (i + 4)
  have b5 := getD_lt_256 key hkey (i + 5)
  have b6 := getD_lt_256 key hkey (i + 6)
  have b7 := getD_lt_256 key hkey (i + 7)
  omega

theorem blockK2_val (key : List Nat) (i : Nat) (hkey : ∀ b ∈ key, b < 256) :
    val (blockK2 key i) = MurmurSpec.le64 (((key.drop i).drop 8).take 8) := by
  simp only [blockK2]
  rw [read4_val _ _ _ _ (getD_lt_256 key hkey _) (getD_lt_256 key hkey _)
      (getD_lt_256 key hkey _) (getD_lt_256 key hkey _),
    read4_val _ _ _ _ (getD_lt_256 key hkey _) (getD_lt_256 key hkey _)
      (getD_lt_256 key hkey _) (getD_lt_256 key hkey _)]
  rw [le64_take8 ((key.drop i).drop 8)]
  simp only [getD_drop0, Nat.reduceAdd, Nat.add_zero, val]
  have b8 := getD_lt_256 key hkey (i + 8)
  have b9 := getD_lt_256 key hkey (i + 9)
  have b10 := getD_lt_256 key hkey (i + 10)
  have b11 := getD_lt_256 key hkey (i + 11)
  have b12 := getD_lt_256 key hkey (i + 12)
  have b13 := getD_lt_256 key hkey (i + 13)
  have b14 := getD_lt_256 key hkey (i + 14)
  have b15 := getD_lt_256 key hkey (i + 15)
  omega

theorem blocksLoop_spec (key : List Nat) (hkey : ∀ b ∈ key, b < 256) :
    ∀ (n i : Nat) (h1 h2 : Nat × Nat), i + 16 * n ≤ key.length →
      key.length - (i + 16 * n) < 16 →
    (val (tailSwitch key (i + 16 * n) (key.length - (i + 16 * n))
        ⟨(0, 0), (0, 0), (0, 0), (blocksLoop key n i h1 h2).1, (blocksLoop key n i h1 h2).2⟩).h1,
     val (tailSwitch key (i + 16 * n) (key.length - (i + 16 * n))
        ⟨(0, 0), (0, 0), (0, 0), (blocksLoop key n i h1 h2).1, (blocksLoop key n i h1 h2).2⟩).h2)
      = MurmurSpec.body (val h1) (val h2) (key.drop i) := by
  intro n
  induction n with
  | zero =>
    intro i h1 h2 hle hlt
    simp only [blocksLoop, Nat.mul_zero, Nat.add_zero]
    exact tailSwitch_spec key hkey i h1 h2 (by omega) (by omega)
  | succ n ih =>
    intro i h1 h2 hle hlt
    have harith : i + 16 * (n + 1) = i + 16 + 16 * n := by ring
    rw [harith]
    simp only [blocksLoop]
    rw [ih (i + 16) _ _ (by omega) (by omega)]
    obtain ⟨e1, e2⟩ := blockStep_val h1 h2 (blockK1 key i) (blockK2 key i)
    rw [blockK1_val key i hkey] at e1 e2
    rw [blockK2_val key i hkey] at e2
    rw [e1, e2]
    conv_rhs => rw [MurmurSpec.body]
    rw [dif_pos (by rw [List.length_drop]; omega)]
    rw [List.drop_drop]
    norm_num

theorem digitsBE_length (k : Nat) : ∀ n, (MurmurSpec.digitsBE k n).length = k := by
  induction k with
  | zero => intro n; rfl
  | succ k ih =>
    intro n
    simp only [MurmurSpec.digitsBE, List.length_append, ih, List.length_singleton]

theorem digitsBE_zero (k : Nat) : MurmurSpec.digitsBE k 0 = List.replicate k '0' := by
  induction k with
  | zero => rfl
  | succ k ih =>
    simp only [MurmurSpec.digitsBE, Nat.zero_div, Nat.zero_mod, ih]
    rw [show hexDigit 0 = '0' from rfl, List.replicate_succ']

theorem hexDigits_length_le (k : Nat) : ∀ n, n < 16 ^ k → (hexDigits n).length ≤ k := by
  induction k with
  | zero =>
    intro n hn
    rw [hexDigits]
    simp only [pow_zero] at hn
    rw [if_pos (by omega)]
    simp
  | succ k ih =>
    intro n hn
    rw [hexDigits]
    by_cases h0 : n = 0
    · rw [if_pos h0]; simp
    · rw [if_neg h0]
      rw [List.length_append, List.length_singleton]
      have hdiv : n / 16 < 16 ^ k := by
        rw [pow_succ, Nat.mul_comm] at hn
        exact Nat.div_lt_of_lt_mul hn
      have := ih (n / 16) hdiv
      omega

theorem digitsBE_pad (k : Nat) : ∀ n, 0 < n → n < 16 ^ k →
    MurmurSpec.digitsBE k n = List.replicate (k - (hexDigits n).length) '0' ++ hexDigits n := by
  induction k with
  | zero =>
    intro n h0 hn
    simp only [pow_zero] at hn
    omega
  | succ k ih =>
    intro n h0 hn
    simp only [MurmurSpec.digitsBE]
    by_cases hsm : n < 16
    · have hd : n / 16 = 0 := Nat.div_eq_of_lt hsm
      rw [hd, digitsBE_zero]
      conv_rhs => rw [hexDigits]
      rw [if_neg (by omega)]
      rw [hexDigits]
      rw [if_pos (Nat.div_eq_of_lt hsm)]
      simp only [List.nil_append, List.length_singleton]
      simp
    · have hpos : 0 < n / 16 := Nat.div_pos (by omega) (by omega)
      have hdiv : n / 16 < 16 ^ k := by
        rw [pow_succ, Nat.mul_comm] at hn
        exact Nat.div_lt_of_lt_mul hn
      rw [ih (n / 16) hpos hdiv]
      conv_rhs => rw [hexDigits]
      rw [if_neg (by omega)]
      rw [List.length_append, List.length_singleton, List.append_assoc]
      congr 2
      omega

theorem digitsBE_add (a b : Nat) : ∀ n, MurmurSpec.digitsBE (a + b) n
    = MurmurSpec.digitsBE a (n / 16 ^ b) ++ MurmurSpec.digitsBE b (n % 16 ^ b) := by
  induction b with
  | zero =>
    intro n
    simp [MurmurSpec.digitsBE]
  | succ b ih =>
    intro n
    rw [show a + (b + 1) = (a + b) + 1 from rfl]
    simp only [MurmurSpec.digitsBE]
    rw [ih (n / 16)]
    rw [List.append_assoc]
    congr 2
    · rw [Nat.div_div_eq_div_mul, pow_succ']
    · rw [show (16 : Nat) ^ (b + 1) = 16 * 16 ^ b from by rw [pow_succ]; ring,
        Nat.mod_mul_right_div_self]
    · rw [Nat.mod_mod_of_dvd _ (dvd_pow_self 16 (by omega))]

theorem zeros8_data : "00000000".data = List.replicate 8 '0' := by decide

theorem renderWord_eq (w : Nat) : renderWord w = MurmurSpec.digitsBE 8 (toUint32 w) := by
  have hm : toUint32 w < 16 ^ 8 := by
    unfold toUint32
    omega
  unfold renderWord toHexLower sliceLast8
  rw [zeros8_data]
  by_cases h0 : toUint32 w = 0
  · rw [if_pos h0, h0, digitsBE_zero]
    decide
  · rw [if_neg h0]
    have hlen : (hexDigits (toUint32 w)).length ≤ 8 := hexDigits_length_le 8 _ hm
    rw [List.length_append, List.length_replicate]
    rw [show 8 + (hexDigits (toUint32 w)).length - 8 = (hexDigits (toUint32 w)).length from by omega]
    rw [List.drop_append_of_le_length (by rw [List.length_replicate]; omega)]
    rw [List.drop_replicate]
    rw [digitsBE_pad 8 _ (by omega) hm]

theorem render_split (w : Nat × Nat) :
    renderWord w.1 ++ renderWord w.2 = MurmurSpec.digitsBE 16 (val w) := by
  rw [renderWord_eq, renderWord_eq,
    show (16 : Nat) = 8 + 8 from rfl, digitsBE_add 8 8 (val w)]
  obtain ⟨a, b⟩ := w
  unfold toUint32 val
  congr 1
  · congr 1
    have : (16 : Nat) ^ 8 = 4294967296 := by norm_num
    rw [this]
    omega
  · congr 1
    have : (16 : Nat) ^ 8 = 4294967296 := by norm_num
    rw [this]
    omega

theorem x64hash128Bytes_spec (key : List Nat) (seed : Nat) (hkey : ∀ b ∈ key, b < 256)
    (hlen : key.length < 4294967296) (hseed : seed < 4294967296) :
    x64hash128Bytes key seed = MurmurSpec.hash key seed := by
  simp only [x64hash128Bytes, MurmurSpec.hash]
  have hmain := blocksLoop_spec key hkey ((key.length - key.length % 16) / 16) 0 (0, seed)
    (0, seed) (by omega) (by omega)
  rw [show 0 + 16 * ((key.length - key.length % 16) / 16) = key.length - key.length % 16
    from by omega] at hmain
  rw [show key.length - (key.length - key.length % 16) = key.length % 16 from by omega] at hmain
  rw [List.drop_zero] at hmain
  have E1 := congrArg Prod.fst hmain
  have E2 := congrArg Prod.snd hmain
  dsimp only at E1 E2
  rw [val_zero_lo seed (by omega)] at E1 E2
  rw [Nat.mod_eq_of_lt (show seed < 2 ^ 64 by omega)]
  rw [Nat.mod_eq_of_lt (show key.length < 2 ^ 64 by omega)]
  have hv : val (0, key.length) = key.length := val_zero_lo _ (by omega)
  rw [List.append_assoc, render_split, render_split]
  simp only [x64Add_val, x64Fmix_val, x64Xor_val, hv, E1, E2]


theorem renderWord_length (w : Nat) : (renderWord w).length = 8 := by
  rw [renderWord_eq, digitsBE_length]

theorem x64hash128Bytes_length (key : List Nat) (seed : Nat) :
    (x64hash128Bytes key seed).length = 32 := by
  simp only [x64hash128Bytes]
  rw [String.length_mk]
  simp [renderWord_length]

theorem hexDigit_isLowerHex : ∀ n, n < 16 → isLowerHex (hexDigit n) = true := by decide

theorem digitsBE_all_hex (k : Nat) : ∀ n c, c ∈ MurmurSpec.digitsBE k n →
    isLowerHex c = true := by
  induction k with
  | zero => intro n c hc; simp [MurmurSpec.digitsBE] at hc
  | succ k ih =>
    intro n c hc
    simp only [MurmurSpec.digitsBE, List.mem_append, List.mem_singleton] at hc
    rcases hc with hc | hc
    · exact ih _ c hc
    · rw [hc]
      exact hexDigit_isLowerHex _ (Nat.mod_lt _ (by omega))

theorem x64hash128Bytes_all_hex (key : List Nat) (seed : Nat) :
    ∀ c ∈ (x64hash128Bytes key seed).data, isLowerHex c = true := by
  intro c hc
  simp only [x64hash128Bytes] at hc
  simp only [renderWord_eq, List.mem_append] at hc
  rcases hc with ((hc | hc) | hc) | hc <;> exact digitsBE_all_hex 8 _ c hc

theorem getUTF8Bytes_lt (s : String) : ∀ b ∈ getUTF8Bytes s, b < 256 := by
  intro b hb
  simp only [getUTF8Bytes, List.mem_flatMap] at hb
  obtain ⟨c, _, hbc⟩ := hb
  have hval : c.toNat < 1114112 := by
    have h := c.valid
    have heq : c.toNat = c.val.toNat := rfl
    rcases h with h | ⟨h1, h2⟩
    · have h3 : c.val.toNat < 55296 := h
      omega
    · have h3 : c.val.toNat < 1114112 := h2
      omega
  unfold utf8EncodeChar at hbc
  dsimp only at hbc
  split_ifs at hbc with h1 h2 h3 <;> simp only [List.mem_cons, List.mem_singleton,
    List.not_mem_nil, or_false] at hbc <;> rcases hbc with rfl | hbc <;> try omega
  all_goals (rcases hbc with rfl | hbc <;> try omega)
  all_goals (rcases hbc with rfl | hbc <;> try omega)
  all_goals (rcases hbc with rfl | hbc <;> omega)

/-! ### Claim theorems -/

/-- C1: For every input string (whose UTF-8 encoding fits a typed array, i.e.
fewer than 2^32 bytes — every representable JS string satisfies this),
`x64hash128` computes the reference Murmur3 x64-128 hash of the string's UTF-8
byte encoding with seed 0, and returns `h1` concatenated with `h2` rendered as
exactly 32 lowercase hexadecimal characters. -/
theorem claim_C1_x64hash128_matches_reference (s : String)
    (h : (getUTF8Bytes s).length < 4294967296) :
    x64hash128 s 0 = MurmurSpec.hash (getUTF8Bytes s) 0
    ∧ (x64hash128 s 0).length = 32
    ∧ ∀ c ∈ (x64hash128 s 0).data, isLowerHex c = true := by
  refine ⟨?_, ?_, ?_⟩
  · exact x64hash128Bytes_spec _ _ (getUTF8Bytes_lt s) h (by norm_num)
  · exact x64hash128Bytes_length _ _
  · exact x64hash128Bytes_all_hex _ _

/-- Witness for C1 at the concrete input `"abc"`. -/
theorem claim_C1_witness :
    (getUTF8Bytes "abc").length < 4294967296
    ∧ x64hash128 "abc" 0 = MurmurSpec.hash (getUTF8Bytes "abc") 0 := by
  refine ⟨by decide, ?_⟩
  exact (claim_C1_x64hash128_matches_reference "abc" (by decide)).1

/-! ### String-append helpers -/

theorem strEmpty_append (s : String) : "" ++ s = s := by
  apply String.ext
  simp [String.data_append]

theorem strAppend_empty (s : String) : s ++ "" = s := by
  apply String.ext
  simp [String.data_append]

theorem strAppend_ne_empty_right (a b : String) (h : b ≠ "") : a ++ b ≠ "" := by
  intro he
  apply h
  have hd := congrArg String.data he
  simp only [String.data_append] at hd
  rcases List.append_eq_nil.mp hd with ⟨-, h2⟩
  apply String.ext
  simpa using h2

theorem strAppend_ne_empty_left (a b : String) (h : a ≠ "") : a ++ b ≠ "" := by
  intro he
  apply h
  have hd := congrArg String.data he
  simp only [String.data_append] at hd
  rcases List.append_eq_nil.mp hd with ⟨h1, -⟩
  apply String.ext
  simpa using h1

theorem lookup_isSome_of_mem {β : Type} (l : List (String × β)) (k : String)
    (h : k ∈ l.map Prod.fst) : (l.lookup k).isSome = true := by
  induction l with
  | nil => simp at h
  | cons p t ih =>
    obtain ⟨a, b⟩ := p
    simp only [List.map_cons, List.mem_cons] at h
    by_cases hk : k = a
    · subst hk
      simp [List.lookup]
    · have hf : (k == a) = false := by simp [hk]
      rcases h with h | h
      · exact absurd h hk
      · simpa [List.lookup, hf] using ih h

/-! ### The JS string order: totality, transitivity, antisymmetry -/

theorem unitsLe_total : ∀ xs ys : List Nat, unitsLe xs ys = true ∨ unitsLe ys xs = true := by
  intro xs
  induction xs with
  | nil => intro ys; left; rfl
  | cons a as ih =>
    intro ys
    cases ys with
    | nil => right; rfl
    | cons b bs =>
      by_cases hab : a < b
      · left; simp [unitsLe, hab]
      · by_cases hba : b < a
        · right; simp [unitsLe, hba]
        · have heq : a = b := by omega
          subst heq
          rcases ih bs with h | h
          · left; simpa [unitsLe, Nat.lt_irrefl] using h
          · right; simpa [unitsLe, Nat.lt_irrefl] using h

theorem unitsLe_trans : ∀ xs ys zs : List Nat, unitsLe xs ys = true →
    unitsLe ys zs = true → unitsLe xs zs = true := by
  intro xs
  induction xs with
  | nil => intro ys zs h1 h2; rfl
  | cons a as ih =>
    intro ys zs h1 h2
    cases ys with
    | nil => simp [unitsLe] at h1
    | cons b bs =>
      cases zs with
      | nil => simp [unitsLe] at h2
      | cons c cs =>
        by_cases hab : a < b
        · by_cases hbc : b < c
          · simp [unitsLe, show a < c by omega]
          · by_cases hcb : c < b
            · simp [unitsLe, hbc, hcb] at h2
            · have heq : b = c := by omega
              subst heq
              simp [unitsLe, hab]
        · by_cases hba : b < a
          · simp [unitsLe, hab, hba] at h1
          · have heq : a = b := by omega
            subst heq
            simp only [unitsLe, Nat.lt_irrefl, if_false] at h1
            by_cases hac : a < c
            · simp [unitsLe, hac]
            · by_cases hca : c < a
              · simp [unitsLe, hac, hca] at h2
              · have heq2 : a = c := by omega
                subst heq2
                simp only [unitsLe, Nat.lt_irrefl, if_false] at h2 ⊢
                exact ih bs cs h1 h2

theorem unitsLe_antisymm : ∀ xs ys : List Nat, unitsLe xs ys = true →
    unitsLe ys xs = true → xs = ys := by
  intro xs
  induction xs with
  | nil =>
    intro ys h1 h2
    cases ys with
    | nil => rfl
    | cons b bs => simp [unitsLe] at h2
  | cons a as ih =>
    intro ys h1 h2
    cases ys with
    | nil => simp [unitsLe] at h1
    | cons b bs =>
      by_cases hab : a < b
      · simp [unitsLe, hab, show ¬ b < a by omega] at h2
      · by_cases hba : b < a
        · simp [unitsLe, hab, hba] at h1
        · have heq : a = b := by omega
          subst heq
          simp only [unitsLe, Nat.lt_irrefl, if_false] at h1 h2
          rw [ih bs h1 h2]

/-! ### Injectivity of the UTF-16 encoding -/

theorem charToNat_inj {c d : Char} (h : c.toNat = d.toNat) : c = d := by
  apply Char.ext
  exact UInt32.ext h

theorem charUtf16_ne_nil (c : Char) : charUtf16 c ≠ [] := by
  unfold charUtf16
  split <;> simp

theorem utf16_flatMap_inj : ∀ l1 l2 : List Char,
    l1.flatMap charUtf16 = l2.flatMap charUtf16 → l1 = l2 := by
  intro l1
  induction l1 with
  | nil =>
    intro l2 h
    cases l2 with
    | nil => rfl
    | cons d t =>
      rw [List.flatMap_nil, List.flatMap_cons] at h
      cases hc : charUtf16 d with
      | nil => exact absurd hc (charUtf16_ne_nil d)
      | cons u us => rw [hc] at h; simp at h
  | cons c t ih =>
    intro l2 h
    cases l2 with
    | nil =>
      rw [List.flatMap_nil, List.flatMap_cons] at h
      cases hc : charUtf16 c with
      | nil => exact absurd hc (charUtf16_ne_nil c)
      | cons u us => rw [hc] at h; simp at h
    | cons d t2 =>
      rw [List.flatMap_cons, List.flatMap_cons] at h
      have hceq : c.toNat = c.val.toNat := rfl
      have hdeq : d.toNat = d.val.toNat := rfl
      have hcv : c.val.toNat < 55296 ∨ (57343 < c.val.toNat ∧ c.val.toNat < 1114112) := by
        rcases c.valid with hv | ⟨hv1, hv2⟩
        · left; exact hv
        · right; exact ⟨hv1, hv2⟩
      have hdv : d.val.toNat < 55296 ∨ (57343 < d.val.toNat ∧ d.val.toNat < 1114112) := by
        rcases d.valid with hv | ⟨hv1, hv2⟩
        · left; exact hv
        · right; exact ⟨hv1, hv2⟩
      unfold charUtf16 at h
      by_cases hc1 : c.toNat < 65536
      · by_cases hd1 : d.toNat < 65536
        · rw [if_pos hc1, if_pos hd1] at h
          simp only [List.cons_append, List.nil_append] at h
          obtain ⟨h1, h2⟩ := List.cons_eq_cons.mp h
          have hcd : c = d := charToNat_inj h1
          subst hcd
          rw [ih t2 h2]
        · rw [if_pos hc1, if_neg hd1] at h
          simp only [List.cons_append, List.nil_append] at h
          obtain ⟨h1, -⟩ := List.cons_eq_cons.mp h
          exfalso
          rcases hcv with hv | ⟨hv1, hv2⟩ <;> rcases hdv with hw | ⟨hw1, hw2⟩ <;> omega
      · by_cases hd1 : d.toNat < 65536
        · rw [if_neg hc1, if_pos hd1] at h
          simp only [List.cons_append, List.nil_append] at h
          obtain ⟨h1, -⟩ := List.cons_eq_cons.mp h
          exfalso
          rcases hcv with hv | ⟨hv1, hv2⟩ <;> rcases hdv with hw | ⟨hw1, hw2⟩ <;> omega
        · rw [if_neg hc1, if_neg hd1] at h
          simp only [List.cons_append, List.nil_append] at h
          obtain ⟨h1, h23⟩ := List.cons_eq_cons.mp h
          obtain ⟨h2, h3⟩ := List.cons_eq_cons.mp h23
          have hcd : c = d := by
            apply charToNat_inj
            omega
          subst hcd
          rw [ih t2 h3]

theorem utf16Units_inj (a b : String) (h : utf16Units a = utf16Units b) : a = b :=
  String.ext (utf16_flatMap_inj a.data b.data h)

theorem jsLe_total (a b : String) : jsLe a b ∨ jsLe b a := unitsLe_total _ _

theorem jsLe_trans (a b c : String) : jsLe a b → jsLe b c → jsLe a c :=
  unitsLe_trans _ _ _

theorem jsLe_antisymm (a b : String) : jsLe a b → jsLe b a → a = b := fun h1 h2 =>
  utf16Units_inj a b (unitsLe_antisymm _ _ h1 h2)

/-! ### The canonicalizer fold as a record join -/

theorem recordOf_ne_empty (components : List (String × Component ε)) (k : String) :
    recordOf components k ≠ "" := by
  unfold recordOf
  exact strAppend_ne_empty_left _ _ (strAppend_ne_empty_right _ _ (by decide))

theorem canonical_fold_go (components : List (String × Component ε)) :
    ∀ (ks : List String) (acc : String), acc ≠ "" →
      (∀ k ∈ ks, (components.lookup k).isSome = true) →
      List.foldl (fun result componentKey =>
          match components.lookup componentKey with
          | some component =>
            result ++ (if result = "" then "" else "|")
              ++ escapeKey componentKey ++ ":" ++ renderComponentValue component
          | none => result) acc ks
        = acc ++ tailJoin components ks := by
  intro ks
  induction ks with
  | nil =>
    intro acc hacc hsome
    simp [tailJoin, strAppend_empty]
  | cons k ks ih =>
    intro acc hacc hsome
    have hs := hsome k (List.mem_cons_self k ks)
    obtain ⟨c, hc⟩ := Option.isSome_iff_exists.mp hs
    have hif : (if acc = "" then ("" : String) else "|") = "|" := if_neg hacc
    rw [List.foldl_cons]
    simp only [hc, hif]
    rw [ih (acc ++ "|" ++ escapeKey k ++ ":" ++ renderComponentValue c)
      (strAppend_ne_empty_left _ _ (strAppend_ne_empty_right _ _ (by decide)))
      (fun k2 hk2 => hsome k2 (List.mem_cons_of_mem _ hk2))]
    simp only [tailJoin, recordOf, hc, Option.map_some', Option.getD_some]
    apply String.ext
    simp [String.data_append]

theorem join_tail (components : List (String × Component ε)) :
    ∀ (ks : List String) (k : String),
      joinRecords ((k :: ks).map (recordOf components))
        = recordOf components k ++ tailJoin components ks := by
  intro ks
  induction ks with
  | nil =>
    intro k
    simp [joinRecords, tailJoin, strAppend_empty]
  | cons k2 ks2 ih =>
    intro k
    simp only [List.map_cons, joinRecords]
    rw [← List.map_cons, ih k2]
    simp only [tailJoin]
    apply String.ext
    simp [String.data_append]

theorem canonical_eq_join (components : List (String × Component ε)) :
    componentsToCanonicalString components
      = joinRecords ((sortKeys (components.map Prod.fst)).map (recordOf components)) := by
  have hmem : ∀ k ∈ sortKeys (components.map Prod.fst),
      (components.lookup k).isSome = true := by
    intro k hk
    exact lookup_isSome_of_mem _ _ ((List.perm_insertionSort jsLe _).mem_iff.mp hk)
  simp only [componentsToCanonicalString]
  cases hs : sortKeys (components.map Prod.fst) with
  | nil => simp [joinRecords]
  | cons k ks =>
    rw [hs] at hmem
    have hsk := hmem k (List.mem_cons_self k ks)
    obtain ⟨c, hc⟩ := Option.isSome_iff_exists.mp hsk
    have hinit : ((("" : String) ++ if ("" : String) = "" then "" else "|")
        ++ escapeKey k ++ ":" ++ renderComponentValue c) = recordOf components k := by
      simp only [recordOf, hc, Option.map_some', Option.getD_some]
      apply String.ext
      simp [String.data_append]
    rw [List.foldl_cons, hc]
    change List.foldl _ ((("" : String) ++ if ("" : String) = "" then "" else "|")
        ++ escapeKey k ++ ":" ++ renderComponentValue c) ks
      = joinRecords (List.map (recordOf components) (k :: ks))
    rw [hinit]
    cases ks with
    | nil => simp [joinRecords, tailJoin, strAppend_empty]
    | cons k2 ks2 =>
      rw [canonical_fold_go components (k2 :: ks2) _ (recordOf_ne_empty components k)
        (fun k2 hk2 => hmem k2 (List.mem_cons_of_mem _ hk2))]
      rw [join_tail]

/-! ### C3 -/

/-- C3: the canonical string is the records of the lexicographically sorted
names — each rendered as `name:value` — joined by `|` with no trailing
delimiter; the sorted key list is sorted under the JS string order and is a
permutation of the component names; canonicalizing `{b: 2, a: 1}` yields
exactly `a:1|b:2`. -/
theorem claim_C3_sorted_names_joined (components : List (String × Component ε)) :
    componentsToCanonicalString components
      = joinRecords ((sortKeys (components.map Prod.fst)).map (recordOf components))
    ∧ List.Sorted jsLe (sortKeys (components.map Prod.fst))
    ∧ (sortKeys (components.map Prod.fst)).Perm (components.map Prod.fst)
    ∧ componentsToCanonicalString
        [("b", (Component.value (.num 2) 0 : Component Unit)),
         ("a", Component.value (.num 1) 0)] = "a:1|b:2" := by
  refine ⟨canonical_eq_join components, ?_, List.perm_insertionSort jsLe _, by decide⟩
  exact @List.sorted_insertionSort String jsLe _ ⟨jsLe_total⟩ ⟨jsLe_trans⟩ _

/-! ### C4 -/

theorem fold_congr_rel (A B : List (String × Component ε))
    (hrel : ∀ k, sameVisible (A.lookup k) (B.lookup k)) :
    ∀ (ks : List String) (acc : String),
      List.foldl (fun result componentKey =>
          match A.lookup componentKey with
          | some component =>
            result ++ (if result = "" then "" else "|")
              ++ escapeKey componentKey ++ ":" ++ renderComponentValue component
          | none => result) acc ks
      = List.foldl (fun result componentKey =>
          match B.lookup componentKey with
          | some component =>
            result ++ (if result = "" then "" else "|")
              ++ escapeKey componentKey ++ ":" ++ renderComponentValue component
          | none => result) acc ks := by
  intro ks
  induction ks with
  | nil => intro acc; rfl
  | cons k ks ih =>
    intro acc
    rw [List.foldl_cons, List.foldl_cons]
    have hk := hrel k
    cases hA : A.lookup k with
    | none =>
      cases hB : B.lookup k with
      | none => simp only [hA, hB]; exact ih acc
      | some cB => rw [hA, hB] at hk; simp [sameVisible] at hk
    | some cA =>
      cases hB : B.lookup k with
      | none => rw [hA, hB] at hk; cases cA <;> simp [sameVisible] at hk
      | some cB =>
        rw [hA, hB] at hk
        cases cA with
        | value v dv =>
          cases cB with
          | value w dw =>
            have hvw : v = w := hk
            subst hvw
            simp only [hA, hB, renderComponentValue]
            exact ih _
          | error e dw => simp [sameVisible] at hk
        | error eA dA =>
          cases cB with
          | value w dw => simp [sameVisible] at hk
          | error eB dB =>
            simp only [hA, hB, renderComponentValue]
            exact ih _

/-- C4: two component sets with the same names (up to permutation) and
lookups agreeing on everything visible to the canonicalizer — same
absent/error/value shape, equal values on value components, error payloads and
durations arbitrary — canonicalize identically, so error details never reach
the canonical string; a set where probe `x` errors and probe `y` has value 5
canonicalizes to `x:error|y:5`. -/
theorem claim_C4_error_details_never_leak (A B : List (String × Component ε))
    (hnames : (A.map Prod.fst).Perm (B.map Prod.fst))
    (hrel : ∀ k, sameVisible (A.lookup k) (B.lookup k)) :
    componentsToCanonicalString A = componentsToCanonicalString B
    ∧ componentsToCanonicalString
        [("x", (Component.error 0 1 : Component Nat)),
         ("y", Component.value (.num 5) 1)] = "x:error|y:5" := by
  constructor
  · have hsort : sortKeys (A.map Prod.fst) = sortKeys (B.map Prod.fst) := by
      apply @List.eq_of_perm_of_sorted String jsLe ⟨jsLe_antisymm⟩
      · exact ((List.perm_insertionSort jsLe _).trans hnames).trans
          (List.perm_insertionSort jsLe _).symm
      · exact @List.sorted_insertionSort String jsLe _ ⟨jsLe_total⟩ ⟨jsLe_trans⟩ _
      · exact @List.sorted_insertionSort String jsLe _ ⟨jsLe_total⟩ ⟨jsLe_trans⟩ _
    simp only [componentsToCanonicalString]
    rw [hsort]
    exact fold_congr_rel A B hrel _ _
  · decide

/-- Witness for C4: two sets listing the same probes in different orders, the
`x` probe with different error payloads and durations, the `y` probe with the
same value 5 and different durations, canonicalize identically. -/
theorem claim_C4_witness :
    (([("x", (Component.error 5 3 : Component Nat)),
       ("y", Component.value (.num 5) 1)].map Prod.fst).Perm
      ([("y", (Component.value (.num 5) 9 : Component Nat)),
        ("x", Component.error 99 2)].map Prod.fst))
    ∧ componentsToCanonicalString
        [("x", (Component.error 5 3 : Component Nat)),
         ("y", Component.value (.num 5) 1)]
      = componentsToCanonicalString
        [("y", (Component.value (.num 5) 9 : Component Nat)),
         ("x", Component.error 99 2)] := by
  have hrel : ∀ k : String,
      sameVisible
        (List.lookup k [("x", (Component.error 5 3 : Component Nat)),
          ("y", Component.value (.num 5) 1)])
        (List.lookup k [("y", (Component.value (.num 5) 9 : Component Nat)),
          ("x", Component.error 99 2)]) := by
    intro k
    by_cases hx : k = "x"
    · subst hx; simp [List.lookup, sameVisible]
    · by_cases hy : k = "y"
      · subst hy; simp [List.lookup, sameVisible]
      · have hbx : (k == "x") = false := beq_eq_false_iff_ne.mpr hx
        have hby : (k == "y") = false := beq_eq_false_iff_ne.mpr hy
        simp [List.lookup, hbx, hby, sameVisible]
  exact ⟨by decide,
    (claim_C4_error_details_never_leak _ _ (by decide) hrel).1⟩

/-! ### C2 -/

theorem escape_flat_prop : ∀ (l : List Char) (i : Nat) (c : Char),
    (l.flatMap escapeKeyChar)[i]? = some c → (c = ':' ∨ c = '|') →
    0 < i ∧ (l.flatMap escapeKeyChar)[i - 1]? = some '\\' := by
  intro l
  induction l with
  | nil =>
    intro i c h hc
    rw [List.flatMap_nil] at h
    simp at h
  | cons a t ih =>
    intro i c h hc
    rw [List.flatMap_cons] at h ⊢
    by_cases ha : a = ':' ∨ a = '|' ∨ a = '\\'
    · rw [escapeKeyChar, if_pos ha] at h ⊢
      simp only [List.cons_append, List.nil_append] at h ⊢
      cases i with
      | zero =>
        rw [List.getElem?_cons_zero] at h
        obtain rfl := Option.some.inj h
        rcases hc with hc | hc <;> simp at hc
      | succ i1 =>
        cases i1 with
        | zero =>
          refine ⟨by omega, ?_⟩
          rw [List.getElem?_cons_zero]
        | succ j =>
          rw [List.getElem?_cons_succ, List.getElem?_cons_succ] at h
          obtain ⟨hj, hrest⟩ := ih j c h hc
          cases j with
          | zero => omega
          | succ m =>
            refine ⟨by omega, ?_⟩
            rw [show m + 1 + 1 + 1 - 1 = m + 1 + 1 from rfl,
              List.getElem?_cons_succ, List.getElem?_cons_succ]
            simpa using hrest
    · rw [escapeKeyChar, if_neg ha] at h ⊢
      simp only [List.cons_append, List.nil_append] at h ⊢
      cases i with
      | zero =>
        rw [List.getElem?_cons_zero] at h
        obtain rfl := Option.some.inj h
        exact absurd (hc.elim (fun h2 => Or.inl h2) (fun h2 => Or.inr (Or.inl h2))) ha
      | succ j =>
        rw [List.getElem?_cons_succ] at h
        obtain ⟨hj, hrest⟩ := ih j c h hc
        cases j with
        | zero => omega
        | succ m =>
          refine ⟨by omega, ?_⟩
          rw [show m + 1 + 1 - 1 = m + 1 from rfl, List.getElem?_cons_succ]
          simpa using hrest

/-- C2 (corrected): the canonicalizer backslash-escapes `:`, `|`, `\` in
component names only — in `escapeKey` output every `:` or `|` is immediately
preceded by a backslash — while the rendered component value is included
verbatim: a single record is exactly `escapeKey name ++ ":" ++ rendered value`,
and a value rendering to `"|"` keeps its unescaped `|`. -/
theorem claim_C2_names_escaped_values_verbatim {ε : Type} :
    (∀ (name : String) (c : Component ε),
      componentsToCanonicalString [(name, c)]
        = escapeKey name ++ ":" ++ renderComponentValue c)
    ∧ (∀ (s : String) (i : Nat) (c : Char),
        (escapeKey s).data[i]? = some c → (c = ':' ∨ c = '|') →
        0 < i ∧ (escapeKey s).data[i - 1]? = some '\\')
    ∧ componentsToCanonicalString
        [("k", (Component.value (.str "|") 0 : Component Unit))] = "k:\"|\"" := by
    refine ⟨?_, ?_, by decide⟩
    · intro name c
      simp only [componentsToCanonicalString]
      rw [show ([(name, c)].map Prod.fst) = [name] from rfl,
        show sortKeys [name] = [name] from rfl]
      have hl : List.lookup name [(name, c)] = some c := by simp [List.lookup]
      simp only [List.foldl_cons, List.foldl_nil, hl, if_pos rfl]
      apply String.ext
      simp [String.data_append]
    · intro s i c h hc
      exact escape_flat_prop s.data i c h hc

/-- Counterexample to C2 as stated: on a value rendering to `"|"` the
canonicalizer does not escape the `|` inside the rendered value, so it
differs from the claimed variant that escapes values too. -/
theorem claim_C2_counterexample :
    componentsToCanonicalString
        [("k", (Component.value (.str "|") 0 : Component Unit))]
      ≠ componentsToCanonicalStringClaim
        [("k", (Component.value (.str "|") 0 : Component Unit))]
    ∧ componentsToCanonicalStringClaim
        [("k", (Component.value (.str "|") 0 : Component Unit))] = "k:\"\\|\"" := by
  decide

/-- Witness for C2 at the concrete name `a:b`: the escaped name has `:` at
index 2, preceded by a backslash at index 1. -/
theorem claim_C2_witness :
    (escapeKey "a:b").data[2]? = some ':'
    ∧ (0 < 2 ∧ (escapeKey "a:b").data[2 - 1]? = some '\\') := by
  refine ⟨by decide, ?_⟩
  exact (claim_C2_names_escaped_values_verbatim (ε := Unit)).2.1 "a:b" 2 ':'
    (by decide) (Or.inl rfl)

/-! ### C5 -/

/-- C5: a probe failure in either stage is captured as an error outcome with
the measured duration (first stage: the `Date.now()` difference around the
load; second stage: `loadDuration` plus the `Date.now()` difference around the
getter run), is returned rather than propagated, and every outcome carries
exactly one of value/error. -/
theorem claim_C5_errors_become_outcomes (source : Source σ V E) (w : Wld σ) :
    (∀ (e : E) (w1 : Wld σ), source.load (dateNow w).2 = (w1, Except.error e) →
      ∀ w2 : Wld σ, (loadSource source w).1 w2
        = (w2, Outcome.error e ((dateNow w1).1 - (dateNow w).1)))
    ∧ (∀ (g : Wld σ → Wld σ × Except E V) (w1 : Wld σ),
        source.load (dateNow w).2 = (w1, Except.ok (LoadResult.getter g)) →
        ∀ (w2 w3 : Wld σ) (e : E), g (dateNow w2).2 = (w3, Except.error e) →
          (loadSource source w).1 w2
            = ((dateNow w3).2, Outcome.error e
                (((dateNow w1).1 - (dateNow w).1) + ((dateNow w3).1 - (dateNow w2).1))))
    ∧ (∀ w2 : Wld σ, (((loadSource source w).1 w2).2.isValue = true)
        ↔ ¬ (((loadSource source w).1 w2).2.isError = true)) := by
  refine ⟨?_, ?_, ?_⟩
  · intro e w1 hld w2
    simp only [loadSource, hld]
  · intro g w1 hld w2 w3 e hg
    simp only [loadSource, hld, hg]
  · intro w2
    cases ((loadSource source w).1 w2).2 <;> simp [Outcome.isValue, Outcome.isError]

/-- Witness for C5: a probe that throws in its first stage, with clock
readings 10 and 25, yields an error outcome with duration 15 and the getter
leaves the world untouched. -/
theorem claim_C5_witness :
    ((⟨fun u => (u, Except.error 7)⟩ : Source Nat Nat Nat).load
        (dateNow ⟨0, [10, 25]⟩).2 = (⟨0, [25]⟩, Except.error 7))
    ∧ (loadSource (⟨fun u => (u, Except.error 7)⟩ : Source Nat Nat Nat)
        ⟨0, [10, 25]⟩).1 ⟨0, []⟩ = (⟨0, []⟩, Outcome.error 7 15) := by
  refine ⟨rfl, ?_⟩
  have h := (claim_C5_errors_become_outcomes
      (⟨fun u => (u, Except.error 7)⟩ : Source Nat Nat Nat) ⟨0, [10, 25]⟩).1
      7 ⟨0, [25]⟩ rfl ⟨0, []⟩
  simpa [dateNow] using h

/-! ### C6 -/

/-- C6 (corrected): `loadSource` invokes the first stage exactly once, and for
a probe that settles in its first stage (final value or thrown error) the
returned getter is pure and idempotent: every call returns its argument world
unchanged together with the same fixed outcome, so a second call is a no-op.
(For two-stage probes each getter call re-runs the second-stage continuation;
see the counterexample.) -/
theorem claim_C6_settled_getter_idempotent (source : Source σ V E) (w : Wld σ) :
    (∀ (v : V) (w1 : Wld σ),
      source.load (dateNow w).2 = (w1, Except.ok (LoadResult.final v)) →
      (∀ w2 : Wld σ, (loadSource source w).1 w2
        = (w2, Outcome.value v ((dateNow w1).1 - (dateNow w).1)))
      ∧ ∀ w2 : Wld σ, (loadSource source w).1 ((loadSource source w).1 w2).1
          = (loadSource source w).1 w2)
    ∧ (∀ (e : E) (w1 : Wld σ),
      source.load (dateNow w).2 = (w1, Except.error e) →
      (∀ w2 : Wld σ, (loadSource source w).1 w2
        = (w2, Outcome.error e ((dateNow w1).1 - (dateNow w).1)))
      ∧ ∀ w2 : Wld σ, (loadSource source w).1 ((loadSource source w).1 w2).1
          = (loadSource source w).1 w2) := by
  constructor
  · intro v w1 hld
    have hval : ∀ w2 : Wld σ, (loadSource source w).1 w2
        = (w2, Outcome.value v ((dateNow w1).1 - (dateNow w).1)) := by
      intro w2
      simp only [loadSource, hld]
    refine ⟨hval, fun w2 => ?_⟩
    rw [hval w2, hval ((w2, Outcome.value v ((dateNow w1).1 - (dateNow w).1)).1)]
  · intro e w1 hld
    have herr : ∀ w2 : Wld σ, (loadSource source w).1 w2
        = (w2, Outcome.error e ((dateNow w1).1 - (dateNow w).1)) := by
      intro w2
      simp only [loadSource, hld]
    refine ⟨herr, fun w2 => ?_⟩
    rw [herr w2, herr ((w2, Outcome.error e ((dateNow w1).1 - (dateNow w).1)).1)]

/-- Counterexample to C6 as stated: for a two-stage probe whose continuation
counts its invocations, the getter re-invokes the continuation on every call —
the two calls return different outcomes and the probe-visible state records
two invocations. -/
theorem claim_C6_counterexample :
    ((loadSource countingProbe ⟨0, []⟩).1 ⟨0, []⟩).2 = Outcome.value 0 0
    ∧ ((loadSource countingProbe ⟨0, []⟩).1
        (((loadSource countingProbe ⟨0, []⟩).1 ⟨0, []⟩).1)).2 = Outcome.value 1 0
    ∧ ((loadSource countingProbe ⟨0, []⟩).1
        (((loadSource countingProbe ⟨0, []⟩).1 ⟨0, []⟩).1)).1.user = 2
    ∧ ((loadSource countingProbe ⟨0, []⟩).1 ⟨0, []⟩).2
        ≠ ((loadSource countingProbe ⟨0, []⟩).1
            (((loadSource countingProbe ⟨0, []⟩).1 ⟨0, []⟩).1)).2 := by
  refine ⟨rfl, rfl, rfl, by decide⟩

/-- Witness for C6: a first-stage-settled probe returning 42 with clock
readings 5 and 9: the getter maps any world to itself with outcome
`value 42 4`. -/
theorem claim_C6_witness :
    ((⟨fun u => (u, Except.ok (LoadResult.final 42))⟩ : Source Nat Nat Unit).load
        (dateNow ⟨0, [5, 9]⟩).2 = (⟨0, [9]⟩, Except.ok (LoadResult.final 42)))
    ∧ (loadSource (⟨fun u => (u, Except.ok (LoadResult.final 42))⟩ : Source Nat Nat Unit)
        ⟨0, [5, 9]⟩).1 ⟨3, []⟩ = (⟨3, []⟩, Outcome.value 42 4) := by
  refine ⟨rfl, ?_⟩
  have h := ((claim_C6_settled_getter_idempotent
      (⟨fun u => (u, Except.ok (LoadResult.final 42))⟩ : Source Nat Nat Unit)
      ⟨0, [5, 9]⟩).1 42 ⟨0, [9]⟩ rfl).1 ⟨3, []⟩
  simpa [dateNow] using h

/-! ### C7 -/

theorem mapWithBreaksGo_eq_mapIdx (callback : α → Nat → β) (interval : Int) :
    ∀ (items : List α) (i : Nat) (t : Int) (clock : List Int),
      mapWithBreaksGo callback interval items i t clock = mapIdx callback items i := by
  intro items
  induction items with
  | nil => intro i t clock; rfl
  | cons item rest ih =>
    intro i t clock
    simp only [mapWithBreaksGo, mapIdx]
    split <;> exact congrArg (fun l => callback item i :: l) (ih (i + 1) _ _)

theorem mapIdx_length (callback : α → Nat → β) :
    ∀ (items : List α) (i : Nat), (mapIdx callback items i).length = items.length := by
  intro items
  induction items with
  | nil => intro i; rfl
  | cons a rest ih => intro i; simp [mapIdx, ih]

theorem mapIdx_getElem? (callback : α → Nat → β) :
    ∀ (items : List α) (i j : Nat),
      (mapIdx callback items i)[j]? = (items[j]?).map fun a => callback a (i + j) := by
  intro items
  induction items with
  | nil => intro i j; simp [mapIdx]
  | cons a rest ih =>
    intro i j
    cases j with
    | zero => simp [mapIdx]
    | succ j =>
      simp only [mapIdx, List.getElem?_cons_succ]
      rw [ih (i + 1) j, show i + 1 + j = i + (j + 1) from by omega]

/-- C7: `mapWithBreaks` returns a list of the input's length whose element at
every position is the callback applied to the input element at that position —
independent of the release interval, the start time and the clock readings
that drive the yield points. -/
theorem claim_C7_order_preserved (items : List α) (callback : α → Nat → β)
    (loopReleaseInterval : Int) (startTime : Int) (clock : List Int) :
    (mapWithBreaks items callback loopReleaseInterval startTime clock).length
      = items.length
    ∧ ∀ j : Nat, (mapWithBreaks items callback loopReleaseInterval startTime clock)[j]?
        = (items[j]?).map fun a => callback a j := by
  constructor
  · rw [mapWithBreaks, mapWithBreaksGo_eq_mapIdx, mapIdx_length]
  · intro j
    rw [mapWithBreaks, mapWithBreaksGo_eq_mapIdx, mapIdx_getElem?]
    simp

/-! ### C8 -/

theorem openScore_cases {ε : Type} (env : Env) (components : List (String × Component ε))
    (o : Rat) (h : getOpenConfidenceScore env components = some o) :
    o = (0.3 : Rat) ∨ o = (0.4 : Rat) ∨ o = (0.5 : Rat) ∨ o = (0.6 : Rat)
      ∨ o = (0.7 : Rat) := by
  simp only [getOpenConfidenceScore] at h
  split_ifs at h
  · exact Or.inr (Or.inl (Option.some.inj h).symm)
  · exact Or.inr (Or.inr (Or.inl (Option.some.inj h).symm))
  · exact Or.inl (Option.some.inj h).symm
  · cases hL : components.lookup "platform" with
    | none => rw [hL] at h; cases h
    | some comp =>
      simp only [hL] at h
      split_ifs at h
      · exact Or.inr (Or.inr (Or.inr (Or.inl (Option.some.inj h).symm)))
      · exact Or.inr (Or.inr (Or.inl (Option.some.inj h).symm))
      · exact Or.inr (Or.inr (Or.inr (Or.inr (Option.some.inj h).symm)))

/-- C8 (corrected): `getConfidence` fails — the code throws a `TypeError`,
modelled as `none` — exactly when the environment is neither Android nor
WebKit and the `platform` component is absent; whenever it returns, the score
is drawn from the fixed lookup {0.3, 0.4, 0.5, 0.6, 0.7} and lies in [0, 1]. -/
theorem claim_C8_confidence_partial_lookup {ε : Type} (env : Env)
    (components : List (String × Component ε)) :
    (getConfidence env components = none
      ↔ env.isAndroid = false ∧ env.isWebKit = false
          ∧ components.lookup "platform" = none)
    ∧ ∀ conf : Confidence, getConfidence env components = some conf →
        (conf.score = (0.3 : Rat) ∨ conf.score = (0.4 : Rat) ∨ conf.score = (0.5 : Rat)
          ∨ conf.score = (0.6 : Rat) ∨ conf.score = (0.7 : Rat))
        ∧ 0 ≤ conf.score ∧ conf.score ≤ 1 := by
  constructor
  · cases hA : env.isAndroid with
    | true => simp [getConfidence, getOpenConfidenceScore, hA]
    | false =>
      cases hW : env.isWebKit with
      | true => simp [getConfidence, getOpenConfidenceScore, hA, hW]
      | false =>
        cases hL : components.lookup "platform" with
        | none => simp [getConfidence, getOpenConfidenceScore, hA, hW, hL]
        | some comp =>
          simp only [getConfidence, getOpenConfidenceScore, hA, hW, hL]
          simp only [Bool.false_eq_true, if_false]
          constructor
          · intro hcontra
            rw [Option.map_eq_none'] at hcontra
            split_ifs at hcontra <;> cases hcontra
          · rintro ⟨-, -, hcontra⟩
            cases hcontra
  · intro conf hconf
    cases ho : getOpenConfidenceScore env components with
    | none => rw [getConfidence, ho] at hconf; cases hconf
    | some o =>
      rw [getConfidence, ho] at hconf
      have hcs : conf.score = o := by
        rw [← Option.some.inj hconf]
      obtain h5 | h5 | h5 | h5 | h5 := openScore_cases env components o ho <;>
        rw [h5] at hcs <;>
        exact ⟨by tauto, by rw [hcs]; norm_num, by rw [hcs]; norm_num⟩

/-- Counterexample to C8 as stated: with no Android/WebKit environment signals
and the `platform` component excluded from the set, `getConfidence` does not
return a score — the code throws (`'value' in components.platform` on
`undefined`), modelled as `none`. -/
theorem claim_C8_counterexample :
    getConfidence ⟨false, false, false, false, false⟩
      ([] : List (String × Component Unit)) = none := rfl

/-- Witness for C8: a set whose `platform` component is `Win32` yields the
mid-range desktop score 0.6, inside the fixed lookup and inside [0, 1]. -/
theorem claim_C8_witness :
    (getConfidence ⟨false, false, false, false, false⟩
        [("platform", (Component.value (.str "Win32") 0 : Component Unit))]
      = some ⟨(0.6 : Rat), deriveProConfidenceScore (0.6 : Rat)⟩)
    ∧ (((⟨(0.6 : Rat), deriveProConfidenceScore (0.6 : Rat)⟩ : Confidence).score = (0.3 : Rat)
        ∨ (⟨(0.6 : Rat), deriveProConfidenceScore (0.6 : Rat)⟩ : Confidence).score = (0.4 : Rat)
        ∨ (⟨(0.6 : Rat), deriveProConfidenceScore (0.6 : Rat)⟩ : Confidence).score = (0.5 : Rat)
        ∨ (⟨(0.6 : Rat), deriveProConfidenceScore (0.6 : Rat)⟩ : Confidence).score = (0.6 : Rat)
        ∨ (⟨(0.6 : Rat), deriveProConfidenceScore (0.6 : Rat)⟩ : Confidence).score = (0.7 : Rat))
      ∧ 0 ≤ (⟨(0.6 : Rat), deriveProConfidenceScore (0.6 : Rat)⟩ : Confidence).score
      ∧ (⟨(0.6 : Rat), deriveProConfidenceScore (0.6 : Rat)⟩ : Confidence).score ≤ 1) := by
  have hc : getConfidence ⟨false, false, false, false, false⟩
      [("platform", (Component.value (.str "Win32") 0 : Component Unit))]
    = some ⟨(0.6 : Rat), deriveProConfidenceScore (0.6 : Rat)⟩ := rfl
  exact ⟨hc, (claim_C8_confidence_partial_lookup ⟨false, false, false, false, false⟩
    [("platform", (Component.value (.str "Win32") 0 : Component Unit))]).2
    ⟨(0.6 : Rat), deriveProConfidenceScore (0.6 : Rat)⟩ hc⟩

/-! ### C9 -/

theorem visitorIdReads_cached {ε : Type} (r : LazyGetResult ε) (v : String)
    (hr : r.visitorIdCache = some v) :
    ∀ n : Nat, visitorIdReads r n = (List.replicate n v, r, 0) := by
  intro n
  induction n with
  | zero => rfl
  | succ n ih =>
    simp [visitorIdReads, visitorIdGet, hr, ih, List.replicate_succ]

/-- C9: for every result object built by `makeLazyGetResult`, reading
`visitorId` `n` times yields `n` copies of the same string
`hashComponents components` (a 32-character identifier), and the hash runs
exactly once — on the first read — regardless of `n`. -/
theorem claim_C9_visitorId_memoized {ε : Type} (env : Env)
    (components : List (String × Component ε)) (r : LazyGetResult ε)
    (hr : makeLazyGetResult env components = some r) (n : Nat) :
    (visitorIdReads r n).1 = List.replicate n (hashComponents components)
    ∧ (visitorIdReads r n).2.2 = (if n = 0 then 0 else 1)
    ∧ (hashComponents components).length = 32 := by
  have hfields : r.visitorIdCache = none ∧ r.components = components := by
    cases hg : getConfidence env components with
    | none => rw [makeLazyGetResult, hg] at hr; cases hr
    | some c =>
      rw [makeLazyGetResult, hg] at hr
      simp only [Option.map_some'] at hr
      obtain rfl := Option.some.inj hr
      exact ⟨rfl, rfl⟩
  obtain ⟨hnone, hcomp⟩ := hfields
  refine ⟨?_, ?_, x64hash128Bytes_length _ _⟩ <;>
  · cases n with
    | zero => simp [visitorIdReads]
    | succ n =>
      simp only [visitorIdReads, visitorIdGet, hnone]
      rw [visitorIdReads_cached _ _ rfl n]
      simp [hcomp, List.replicate_succ]

/-- Witness for C9: the Android environment with the empty component set;
two reads both return the hash of the empty set. -/
theorem claim_C9_witness :
    makeLazyGetResult ⟨true, false, false, false, false⟩
        ([] : List (String × Component Unit))
      = some ⟨⟨(0.4 : Rat), deriveProConfidenceScore (0.4 : Rat)⟩, [], none,
          fingerprintVersion⟩
    ∧ (visitorIdReads (⟨⟨(0.4 : Rat), deriveProConfidenceScore (0.4 : Rat)⟩, [], none,
          fingerprintVersion⟩ : LazyGetResult Unit) 2).1
      = List.replicate 2 (hashComponents ([] : List (String × Component Unit))) := by
  refine ⟨rfl, ?_⟩
  exact (claim_C9_visitorId_memoized ⟨true, false, false, false, false⟩ []
    ⟨⟨(0.4 : Rat), deriveProConfidenceScore (0.4 : Rat)⟩, [], none, fingerprintVersion⟩
    rfl 2).1

/-! ### C10 -/

/-- C10: the empty component set canonicalizes to the empty string, and
`hashComponents` on it is total: it is the Murmur3 x64-128 reference hash of
the empty string with seed 0, 32 characters, all lowercase hex. -/
theorem claim_C10_empty_set_total :
    componentsToCanonicalString ([] : List (String × Component Unit)) = ""
    ∧ hashComponents ([] : List (String × Component Unit)) = x64hash128 ""
    ∧ hashComponents ([] : List (String × Component Unit))
        = MurmurSpec.hash (getUTF8Bytes "") 0
    ∧ (hashComponents ([] : List (String × Component Unit))).length = 32
    ∧ ∀ c ∈ (hashComponents ([] : List (String × Component Unit))).data,
        isLowerHex c = true := by
  refine ⟨rfl, rfl, ?_, x64hash128Bytes_length _ _, x64hash128Bytes_all_hex _ _⟩
  exact x64hash128Bytes_spec (getUTF8Bytes "") 0 (getUTF8Bytes_lt "") (by decide)
    (by norm_num)
